import Mathlib

/-!
Shallow embedding of the newq job-queue core and its storage adapters
(`src/core/utils.ts`, `src/core/types.ts`, the mongodb adapter
`src/adapters/mongodb.ts`, the drizzle (libsql) adapter and the redis
adapter, and the worker loop `createWorker`).

Times are epoch milliseconds, modelled as `Nat`.  Payloads, metadata and
log data are opaque JSON strings, modelled as `String` / `Option String`.
`Date.now()` is passed in explicitly as a `now : Nat` argument, and the
randomly generated identifiers (`genId`) are passed in explicitly as
`String` arguments, so every operation is a pure function on the store.
-/

namespace Newq

/-- `JobStatus` from `src/core/types.ts`. -/
inductive JobStatus
  | pending
  | processing
  | completed
  | failed
  | expired
  deriving DecidableEq, Repr

/-- A job row/document: the `Job` shape of `src/core/types.ts` (also the
drizzle `jobs` table row and the mongodb `JobDocument`, whose `_id` is the
`id` field).  `payload`/`meta` are kept as their stored JSON strings. -/
structure JobDoc where
  id : String
  queue : String
  payload : String
  attempts : Nat
  maxAttempts : Nat
  visibleAt : Nat
  lockedUntil : Nat
  createdAt : Nat
  updatedAt : Nat
  status : JobStatus
  meta : Option String
  deriving DecidableEq, Repr

/-- A job-log row/document: the `JobLog` shape of `src/core/types.ts`. -/
structure JobLogDoc where
  id : String
  jobId : String
  queue : String
  event : String
  data : Option String
  createdAt : Nat
  deriving DecidableEq, Repr

/-- `NackOptions` from `src/core/types.ts`: both fields optional. -/
structure NackOptions where
  requeue : Option Bool
  delayMs : Option Nat
  deriving DecidableEq, Repr

/-! ### Ordering helper (models `ORDER BY` / sorted cursors)

A structural insertion sort over a boolean comparison.  It is a stable
sort, which is how the adapters' `orderBy`/`sort` calls behave on their
result sets; being structurally recursive it also evaluates by `decide`.
-/

/-- Insert `a` into `l`, before the first element `b` with `le a b`. -/
def insertLe {α : Type} (le : α → α → Bool) (a : α) : List α → List α
  | [] => [a]
  | b :: l => if le a b then a :: b :: l else b :: insertLe le a l

/-- Stable insertion sort by the boolean comparison `le`. -/
def sortLe {α : Type} (le : α → α → Bool) : List α → List α
  | [] => []
  | a :: l => insertLe le a (sortLe le l)

/-- Ascending `createdAt` comparison on jobs (`ORDER BY createdAt` /
`sort: createdAt ascending`). -/
def createdAtLe (a b : JobDoc) : Bool := a.createdAt ≤ b.createdAt

/-- Descending `createdAt` comparison on job logs (`ORDER BY createdAt
DESC` / `sort: createdAt -1`). -/
def logCreatedAtGe (a b : JobLogDoc) : Bool := b.createdAt ≤ a.createdAt

/-! ### Shared pure helpers from `src/core/utils.ts` -/

/-- `clamp` from `src/core/utils.ts`:
`Math.max(min, Math.min(max, v))`. -/
def clamp (v lo hi : Nat) : Nat := max lo (min hi v)

/-- `defaultBackoff` from `src/core/utils.ts`:
`clamp(1000 * Math.pow(2, attempts - 1), 0, 60_000)`.
Faithful for `attempts ≥ 1` (for smaller arguments the JS `Math.pow`
produces fractional values that `Nat` subtraction does not model). -/
def defaultBackoff (attempts : Nat) : Nat :=
  clamp (1000 * 2 ^ (attempts - 1)) 0 60000

/-- The `visibleAt` written by `nack` with requeue:
`opts?.delayMs ? currentTime + opts.delayMs : currentTime`
(note `delayMs = 0` is falsy in JS, which still yields `currentTime`). -/
def nackVisibleAt (now : Nat) (delayMs : Option Nat) : Nat :=
  match delayMs with
  | some d => now + d
  | none => now

/-- The `visibleAt` written by `enqueue`:
`opts?.delayMs ? now() + opts.delayMs : now()`. -/
def enqueueVisibleAt (now : Nat) (delayMs : Option Nat) : Nat :=
  match delayMs with
  | some d => now + d
  | none => now

/-! ### Table-backed stores (mongodb collections, drizzle tables)

Both the mongodb adapter and the drizzle adapter keep one jobs table and
one job-logs table; we model each as a list of rows in table (insertion)
order.  `id` is the primary key (`_id` in mongodb); the adapters never
create duplicate ids.
-/

/-- A jobs table plus a job-logs table (mongodb's two collections, or the
drizzle `jobs`/`jobLogs` tables). -/
structure TableStore where
  jobs : List JobDoc
  logs : List JobLogDoc
  deriving DecidableEq, Repr

/-- Update every row whose `id` matches (the primary-key update
`updateOne({_id}) / UPDATE ... WHERE id = ?`). -/
def updateById (i : String) (f : JobDoc → JobDoc) (docs : List JobDoc) :
    List JobDoc :=
  docs.map fun d => if d.id = i then f d else d

/-- The write applied to a claimed job (both adapters): `status ←
processing`, `lockedUntil ← now + visibilityTimeoutMs`, `updatedAt ←
now`, `attempts ← attempts + 1`. -/
def claimUpdate (now vt : Nat) (d : JobDoc) : JobDoc :=
  { d with status := .processing, lockedUntil := now + vt,
           updatedAt := now, attempts := d.attempts + 1 }

/-- The `completed` write of `ack` without `deleteAfterAck`. -/
def completedUpdate (now : Nat) (d : JobDoc) : JobDoc :=
  { d with status := .completed, updatedAt := now }

/-- The requeue write of `nack` (`requeue !== false`). -/
def requeueUpdate (now : Nat) (delayMs : Option Nat) (d : JobDoc) :
    JobDoc :=
  { d with status := .pending, lockedUntil := 0,
           visibleAt := nackVisibleAt now delayMs, updatedAt := now }

/-- The failure write of `nack` with `requeue = false`: only `status` and
`updatedAt` are touched. -/
def failedUpdate (now : Nat) (d : JobDoc) : JobDoc :=
  { d with status := .failed, updatedAt := now }

/-- The row inserted by `enqueue` (same in every adapter). -/
def enqueueDoc (now : Nat) (jobId queue payload : String)
    (maxAttempts : Nat) (delayMs : Option Nat) (meta : Option String) :
    JobDoc :=
  { id := jobId, queue := queue, payload := payload, attempts := 0,
    maxAttempts := maxAttempts, visibleAt := enqueueVisibleAt now delayMs,
    lockedUntil := 0, createdAt := now, updatedAt := now,
    status := .pending, meta := meta }

/-! ### mongodb adapter (`src/adapters/mongodb.ts`) -/

/-- The candidate filter of `mongodbAdapter.dequeue`'s `findOne`:
`queue, status: "pending", visibleAt: ≤ now, lockedUntil: < now`. -/
def mongoCandidate (queue : String) (now : Nat) (d : JobDoc) : Bool :=
  decide (d.queue = queue) && decide (d.status = JobStatus.pending) &&
    decide (d.visibleAt ≤ now) && decide (d.lockedUntil < now)

/-- `findOne(filter, sort: createdAt ascending)`: the first document in
`createdAt` order among those matching the filter. -/
def mongoFindCandidate (queue : String) (now : Nat) (docs : List JobDoc) :
    Option JobDoc :=
  (sortLe createdAtLe (docs.filter (mongoCandidate queue now))).head?

/-- The `$set` of the exhausted-candidate branch of
`mongodbAdapter.dequeue`: `status ← "failed"`, `updatedAt ← now`. -/
def markFailed (now : Nat) (d : JobDoc) : JobDoc :=
  { d with status := .failed, updatedAt := now }

/-- The claim loop of `mongodbAdapter.dequeue` (`for i in 0..limit`):
each iteration finds the oldest candidate; a candidate with
`attempts >= maxAttempts` is marked failed and skipped (consuming the
iteration); otherwise it is claimed via `findOneAndUpdate` and returned
(with `returnDocument: "after"`). -/
def mongoDequeueLoop (queue : String) (now vt : Nat) :
    Nat → List JobDoc → List JobDoc × List JobDoc
  | 0, docs => ([], docs)
  | fuel + 1, docs =>
    match mongoFindCandidate queue now docs with
    | none => ([], docs)
    | some cand =>
      if cand.maxAttempts ≤ cand.attempts then
        mongoDequeueLoop queue now vt fuel
          (updateById cand.id (markFailed now) docs)
      else
        let r := mongoDequeueLoop queue now vt fuel
          (updateById cand.id (claimUpdate now vt) docs)
        (claimUpdate now vt cand :: r.1, r.2)

/-- `mongodbAdapter.dequeue` — returns the claimed jobs and the updated
store. -/
def mongoDequeue (now vt : Nat) (queue : String) (limit : Nat)
    (s : TableStore) : List JobDoc × TableStore :=
  let r := mongoDequeueLoop queue now vt limit s.jobs
  (r.1, { s with jobs := r.2 })

/-- `mongodbAdapter.enqueue` (the generated/supplied id is a parameter;
`maxAttempts` defaults to 3 at the call site). -/
def mongoEnqueue (now : Nat) (jobId queue payload : String)
    (maxAttempts : Nat) (delayMs : Option Nat) (meta : Option String)
    (s : TableStore) : JobDoc × TableStore :=
  let d := enqueueDoc now jobId queue payload maxAttempts delayMs meta
  (d, { s with jobs := s.jobs ++ [d] })

/-- `mongodbAdapter.ack`: `deleteOne({_id})` when `deleteAfterAck`, else
`updateOne({_id}, {$set: {status: "completed", updatedAt}})`. -/
def mongoAck (now : Nat) (deleteAfterAck : Bool) (jobId : String)
    (s : TableStore) : TableStore :=
  if deleteAfterAck then
    { s with jobs := s.jobs.filter fun d => !(d.id == jobId) }
  else
    { s with jobs := updateById jobId (completedUpdate now) s.jobs }

/-- `mongodbAdapter.nack`: `opts?.requeue !== false` requeues
(`status ← pending, lockedUntil ← 0, visibleAt ← now (+ delayMs),
updatedAt ← now`); otherwise `status ← failed, updatedAt ← now` with no
other field touched. -/
def mongoNack (now : Nat) (opts : NackOptions) (jobId : String)
    (s : TableStore) : TableStore :=
  if opts.requeue ≠ some false then
    { s with jobs :=
        updateById jobId (requeueUpdate now opts.delayMs) s.jobs }
  else
    { s with jobs := updateById jobId (failedUpdate now) s.jobs }

/-- `mongodbAdapter.getJob`: `findOne({_id})`, `null` when absent. -/
def mongoGetJob (jobId : String) (s : TableStore) : Option JobDoc :=
  s.jobs.find? fun d => d.id == jobId

/-- `mongodbAdapter.logEvent`: no-op when the job is absent, else insert
a log document (its generated id is the `logId` parameter). -/
def mongoLogEvent (now : Nat) (logId jobId event : String)
    (data : Option String) (s : TableStore) : TableStore :=
  match mongoGetJob jobId s with
  | none => s
  | some j =>
    { s with logs := s.logs ++
        [{ id := logId, jobId := jobId, queue := j.queue, event := event,
           data := data, createdAt := now }] }

/-- `mongodbAdapter.getLogs`: `find({jobId}).sort(createdAt: -1)`. -/
def mongoGetLogs (jobId : String) (s : TableStore) : List JobLogDoc :=
  sortLe logCreatedAtGe (s.logs.filter fun l => l.jobId == jobId)

/-! ### drizzle adapter (`drizzleAdapter`) -/

/-- The `WHERE` clause of `drizzleAdapter.dequeue`'s candidate select:
`queue = ? AND status = 'pending' AND visibleAt < now AND
lockedUntil < now AND attempts < maxAttempts`.  Note the **strict**
`lt(jobs.visibleAt, currentTime)`. -/
def drizzleEligible (queue : String) (now : Nat) (d : JobDoc) : Bool :=
  decide (d.queue = queue) && decide (d.status = JobStatus.pending) &&
    decide (d.visibleAt < now) && decide (d.lockedUntil < now) &&
    decide (d.attempts < d.maxAttempts)

/-- `drizzleAdapter.dequeue`: select eligible rows ordered by
`createdAt` with `LIMIT limit`; update them all; the returned rows come
from a final `SELECT ... WHERE id IN (...)` with no `ORDER BY`, modelled
as table order. -/
def drizzleDequeue (now vt : Nat) (queue : String) (limit : Nat)
    (s : TableStore) : List JobDoc × TableStore :=
  let available :=
    (sortLe createdAtLe (s.jobs.filter (drizzleEligible queue now))).take
      limit
  if available.isEmpty then ([], s)
  else
    let ids := available.map (·.id)
    let jobs2 := s.jobs.map fun d =>
      if ids.contains d.id then claimUpdate now vt d else d
    (jobs2.filter (fun d => ids.contains d.id), { s with jobs := jobs2 })

/-- `drizzleAdapter.enqueue`. -/
def drizzleEnqueue (now : Nat) (jobId queue payload : String)
    (maxAttempts : Nat) (delayMs : Option Nat) (meta : Option String)
    (s : TableStore) : JobDoc × TableStore :=
  let d := enqueueDoc now jobId queue payload maxAttempts delayMs meta
  (d, { s with jobs := s.jobs ++ [d] })

/-- `drizzleAdapter.ack`: `DELETE WHERE id` when `deleteAfterAck`, else
`UPDATE ... SET status='completed', updatedAt WHERE id`. -/
def drizzleAck (now : Nat) (deleteAfterAck : Bool) (jobId : String)
    (s : TableStore) : TableStore :=
  if deleteAfterAck then
    { s with jobs := s.jobs.filter fun d => !(d.id == jobId) }
  else
    { s with jobs := updateById jobId (completedUpdate now) s.jobs }

/-- `drizzleAdapter.nack` (same branches as the mongodb adapter). -/
def drizzleNack (now : Nat) (opts : NackOptions) (jobId : String)
    (s : TableStore) : TableStore :=
  if opts.requeue ≠ some false then
    { s with jobs :=
        updateById jobId (requeueUpdate now opts.delayMs) s.jobs }
  else
    { s with jobs := updateById jobId (failedUpdate now) s.jobs }

/-- `drizzleAdapter.getJob`: `SELECT ... WHERE id LIMIT 1`. -/
def drizzleGetJob (jobId : String) (s : TableStore) : Option JobDoc :=
  s.jobs.find? fun d => d.id == jobId

/-- `drizzleAdapter.logEvent`: no-op when the job row is absent. -/
def drizzleLogEvent (now : Nat) (logId jobId event : String)
    (data : Option String) (s : TableStore) : TableStore :=
  match drizzleGetJob jobId s with
  | none => s
  | some j =>
    { s with logs := s.logs ++
        [{ id := logId, jobId := jobId, queue := j.queue, event := event,
           data := data, createdAt := now }] }

/-- `drizzleAdapter.getLogs`: `SELECT ... WHERE jobId ORDER BY createdAt
DESC`. -/
def drizzleGetLogs (jobId : String) (s : TableStore) : List JobLogDoc :=
  sortLe logCreatedAtGe (s.logs.filter fun l => l.jobId == jobId)

/-! ### redis adapter (`redisAdapter`)

Jobs live in per-id hashes (`job:{id}`), whose fields we model as
`Option`-valued (redis `HGETALL` on a missing key yields an empty hash,
and `HSET` creates whatever fields it is given).  Per-queue sorted sets
`queue:pending:{q}` / `queue:processing:{q}` hold job ids scored by
`visibleAt` / `lockedUntil`; `job:logs:{id}` lists hold audit entries.
-/

/-- A redis job hash.  A field is `none` when the hash does not contain
it (in particular `HGETALL` of a missing key gives the all-`none` hash). -/
structure RHash where
  id : Option String
  queue : Option String
  payload : Option String
  attempts : Option Nat
  maxAttempts : Option Nat
  visibleAt : Option Nat
  lockedUntil : Option Nat
  createdAt : Option Nat
  updatedAt : Option Nat
  status : Option JobStatus
  meta : Option String
  deriving DecidableEq, Repr

/-- The empty hash (`HGETALL` of an absent key). -/
def emptyRHash : RHash :=
  { id := none, queue := none, payload := none, attempts := none,
    maxAttempts := none, visibleAt := none, lockedUntil := none,
    createdAt := none, updatedAt := none, status := none, meta := none }

/-- One sorted-set entry. -/
structure ZEntry where
  member : String
  score : Nat
  deriving DecidableEq, Repr

/-- Sorted-set ordering: by score, ties by member lexicographically. -/
def zEntryLe (a b : ZEntry) : Bool :=
  decide (a.score < b.score) ||
    (decide (a.score = b.score) && decide (a.member ≤ b.member))

/-- `ZRANGEBYSCORE key min max LIMIT 0 count`: members whose score lies
in `[lo, hi]`, in (score, member) order, at most `count` of them. -/
def zRangeByScoreCount (lo hi count : Nat) (z : List ZEntry) :
    List String :=
  ((sortLe zEntryLe (z.filter fun e =>
      decide (lo ≤ e.score) && decide (e.score ≤ hi))).take count).map
    (·.member)

/-- `ZADD` (replaces the member's score if present). -/
def zAdd (m : String) (sc : Nat) (z : List ZEntry) : List ZEntry :=
  (z.filter fun e => !(e.member == m)) ++ [{ member := m, score := sc }]

/-- `ZREM`. -/
def zRem (m : String) (z : List ZEntry) : List ZEntry :=
  z.filter fun e => !(e.member == m)

/-- Association-list lookup (redis keyspace). -/
def lookupKey {α : Type} (k : String) (l : List (String × α)) : Option α :=
  (l.find? fun p => p.1 == k).map (·.2)

/-- Association-list write: overwrite in place, or append a new key. -/
def setKey {α : Type} (k : String) (v : α) :
    List (String × α) → List (String × α)
  | [] => [(k, v)]
  | p :: l => if p.1 == k then (k, v) :: l else p :: setKey k v l

/-- `DEL key`. -/
def delKey {α : Type} (k : String) (l : List (String × α)) :
    List (String × α) :=
  l.filter fun p => !(p.1 == k)

/-- The whole redis keyspace used by the adapter. -/
structure RedisStore where
  jobs : List (String × RHash)
  pendingZ : List (String × List ZEntry)
  processingZ : List (String × List ZEntry)
  logs : List (String × List JobLogDoc)
  deriving DecidableEq, Repr

/-- The per-queue sorted set (missing key = empty set). -/
def getZ (q : String) (zs : List (String × List ZEntry)) : List ZEntry :=
  (lookupKey q zs).getD []

/-- Update the per-queue sorted set. -/
def modZ (q : String) (f : List ZEntry → List ZEntry)
    (zs : List (String × List ZEntry)) : List (String × List ZEntry) :=
  setKey q (f (getZ q zs)) zs

/-- `HGETALL job:{id}` (empty hash when the key is absent). -/
def redisHGetAll (jobId : String) (s : RedisStore) : RHash :=
  (lookupKey jobId s.jobs).getD emptyRHash

/-- The `HSET` of the redis claim path. -/
def redisClaimHash (now vt attempts : Nat) (h : RHash) : RHash :=
  { h with status := some .processing, lockedUntil := some (now + vt),
           updatedAt := some now, attempts := some (attempts + 1) }

/-- The job value returned for a claimed redis job (built from the hash
fields, with `lockedUntil := lockUntil`, `updatedAt := currentTime`,
`attempts := attempts + 1`, `status := "processing"`). -/
def redisClaimedJob (now vt attempts maxAttempts : Nat)
    (jobId queue : String) (h : RHash) : JobDoc :=
  { id := jobId, queue := queue, payload := h.payload.getD "",
    attempts := attempts + 1, maxAttempts := maxAttempts,
    visibleAt := h.visibleAt.getD 0, lockedUntil := now + vt,
    createdAt := h.createdAt.getD 0, updatedAt := now,
    status := .processing, meta := h.meta }

/-- The candidate loop of `redisAdapter.dequeue`: for each candidate id
(until `limit` jobs are collected), skip missing hashes, skip jobs with
`attempts >= maxAttempts || lockedUntil >= currentTime`, otherwise claim:
`HSET` the processing fields, move the id from the pending to the
processing sorted set, and collect the job. -/
def redisDequeueGo (now vt : Nat) (queue : String) (limit : Nat) :
    List String → RedisStore → List JobDoc → List JobDoc × RedisStore
  | [], s, acc => (acc, s)
  | jobId :: rest, s, acc =>
    if limit ≤ acc.length then (acc, s)
    else
      let h := redisHGetAll jobId s
      if h.id.isNone then redisDequeueGo now vt queue limit rest s acc
      else
        let attempts := h.attempts.getD 0
        let maxAttempts := h.maxAttempts.getD 0
        let lockedUntil := h.lockedUntil.getD 0
        if maxAttempts ≤ attempts || now ≤ lockedUntil then
          redisDequeueGo now vt queue limit rest s acc
        else
          let s1 : RedisStore :=
            { s with
              jobs := setKey jobId (redisClaimHash now vt attempts h)
                s.jobs,
              pendingZ := modZ queue (zRem jobId) s.pendingZ,
              processingZ := modZ queue (zAdd jobId (now + vt))
                s.processingZ }
          redisDequeueGo now vt queue limit rest s1
            (acc ++ [redisClaimedJob now vt attempts maxAttempts jobId
              queue h])

/-- `redisAdapter.dequeue`: candidates are read from the pending sorted
set with `ZRANGEBYSCORE 0 currentTime LIMIT 0 (limit * 2)` — i.e. in
**score (`visibleAt`) order**, scores up to and including `now` — then
filtered/claimed by `redisDequeueGo`. -/
def redisDequeue (now vt : Nat) (queue : String) (limit : Nat)
    (s : RedisStore) : List JobDoc × RedisStore :=
  let cands :=
    zRangeByScoreCount 0 now (limit * 2) (getZ queue s.pendingZ)
  redisDequeueGo now vt queue limit cands s []

/-- `redisAdapter.enqueue`: write the full hash and add the id to the
pending sorted set scored by `visibleAt`. -/
def redisEnqueue (now : Nat) (jobId queue payload : String)
    (maxAttempts : Nat) (delayMs : Option Nat) (meta : Option String)
    (s : RedisStore) : JobDoc × RedisStore :=
  let visibleAt := enqueueVisibleAt now delayMs
  let h : RHash :=
    { id := some jobId, queue := some queue, payload := some payload,
      attempts := some 0, maxAttempts := some maxAttempts,
      visibleAt := some visibleAt, lockedUntil := some 0,
      createdAt := some now, updatedAt := some now,
      status := some .pending, meta := meta }
  ({ id := jobId, queue := queue, payload := payload, attempts := 0,
     maxAttempts := maxAttempts, visibleAt := visibleAt,
     lockedUntil := 0, createdAt := now, updatedAt := now,
     status := .pending, meta := meta },
   { s with jobs := setKey jobId h s.jobs,
            pendingZ := modZ queue (zAdd jobId visibleAt) s.pendingZ })

/-- The hash written by redis `ack` without `deleteAfterAck` — note this
`HSET` is **unguarded**: on a missing key it creates a stub hash holding
only `status`/`updatedAt`. -/
def redisAckHash (now : Nat) (h : RHash) : RHash :=
  { h with status := some .completed, updatedAt := some now }

/-- `redisAdapter.ack`.  With `deleteAfterAck` it first `DEL`s the job
hash and only then reads it back to find the queue for the
processing-set `ZREM` — the read sees the already-deleted (empty) hash,
so the `ZREM` branch is dead and the processing-set entry is left
behind.  Without `deleteAfterAck` it `HSET`s `status`/`updatedAt`
unconditionally. -/
def redisAck (now : Nat) (deleteAfterAck : Bool) (jobId : String)
    (s : RedisStore) : RedisStore :=
  if deleteAfterAck then
    let s1 : RedisStore := { s with jobs := delKey jobId s.jobs }
    match (redisHGetAll jobId s1).queue with
    | some q =>
      { s1 with processingZ := modZ q (zRem jobId) s1.processingZ }
    | none => s1
  else
    { s with jobs :=
        setKey jobId (redisAckHash now (redisHGetAll jobId s)) s.jobs }

/-- `redisAdapter.nack`: no-op when the hash is missing (`!jobData.id`);
requeue moves the id back to the pending set scored by the new
`visibleAt`; `requeue = false` sets `status`/`updatedAt` only and
removes the id from the processing set. -/
def redisNack (now : Nat) (opts : NackOptions) (jobId : String)
    (s : RedisStore) : RedisStore :=
  let h := redisHGetAll jobId s
  if h.id.isNone then s
  else
    let q := h.queue.getD ""
    if opts.requeue ≠ some false then
      let v := nackVisibleAt now opts.delayMs
      { s with
        jobs := setKey jobId
          { h with status := some .pending, lockedUntil := some 0,
                   visibleAt := some v, updatedAt := some now } s.jobs,
        processingZ := modZ q (zRem jobId) s.processingZ,
        pendingZ := modZ q (zAdd jobId v) s.pendingZ }
    else
      { s with
        jobs := setKey jobId
          { h with status := some .failed, updatedAt := some now }
          s.jobs,
        processingZ := modZ q (zRem jobId) s.processingZ }

/-- `redisAdapter.getJob`: `null` when the hash is missing
(`!jobData.id`), else the job reconstructed from the hash fields. -/
def redisGetJob (jobId : String) (s : RedisStore) : Option JobDoc :=
  let h := redisHGetAll jobId s
  if h.id.isNone then none
  else some
    { id := jobId, queue := h.queue.getD "", payload := h.payload.getD "",
      attempts := h.attempts.getD 0, maxAttempts := h.maxAttempts.getD 0,
      visibleAt := h.visibleAt.getD 0,
      lockedUntil := h.lockedUntil.getD 0,
      createdAt := h.createdAt.getD 0, updatedAt := h.updatedAt.getD 0,
      status := h.status.getD .pending, meta := h.meta }

/-- `redisAdapter.logEvent`: no-op when the hash is missing, else
`RPUSH` one entry onto `job:logs:{id}`. -/
def redisLogEvent (now : Nat) (logId jobId event : String)
    (data : Option String) (s : RedisStore) : RedisStore :=
  let h := redisHGetAll jobId s
  if h.id.isNone then s
  else
    { s with
      logs := setKey jobId
        (((lookupKey jobId s.logs).getD []) ++
          [{ id := logId, jobId := jobId, queue := h.queue.getD "",
             event := event, data := data, createdAt := now }])
        s.logs }

/-- `redisAdapter.getLogs`: `LRANGE job:logs:{id} 0 -1` (insertion
order, no sort). -/
def redisGetLogs (jobId : String) (s : RedisStore) : List JobLogDoc :=
  (lookupKey jobId s.logs).getD []

/-! ### Worker loop (`createWorker`, one poll iteration)

`createWorker.start` claims `limit = concurrency` jobs per registered
queue and dispatches each to the handler.  When the handler throws, the
loop reports `handler_error` through the configured `logger` **sink**
and then runs the context's `nack({requeue: true})`, which performs the
adapter `nack` followed by `logEvent(jobId, "nack", {opts})`.  We model
one poll iteration over a single queue whose handler always throws,
against the mongodb adapter; the second component collects the events
sent to the logger sink. -/

/-- What the worker loop does to one claimed job when its handler threw:
`logger("handler_error", ...)` (sink, not the audit log), then
`adapter.nack(id, {requeue: true})`, then
`adapter.logEvent(id, "nack", {opts})`. -/
def workerAutoNack (now : Nat) (j : JobDoc) (s : TableStore) :
    TableStore :=
  mongoLogEvent now ("log_" ++ j.id) j.id "nack" (some "opts")
    (mongoNack now { requeue := some true, delayMs := none } j.id s)

/-- One poll iteration of `createWorker.start` over a single registered
queue whose handler always throws: dequeue up to `concurrency` jobs,
then for each claimed job emit `handler_error` to the logger sink and
auto-nack it.  Returns the store and the sink trace. -/
def workerPollOnceThrowing (now vt : Nat) (queue : String)
    (concurrency : Nat) (s : TableStore) : TableStore × List String :=
  let r := mongoDequeue now vt queue concurrency s
  (r.1.foldl (fun st j => workerAutoNack now j st) r.2,
   r.1.map fun _ => "handler_error")

/-! ### Spec-side predicates and scenario stores -/

/-- The spec's claim-eligibility gate (§3 of the spec): a job is
claimable iff
`status = pending ∧ visibleAt ≤ now ∧ lockedUntil < now ∧
attempts < maxAttempts`.  Written from the spec's words, to be compared
with each adapter's dequeue. -/
def specEligible (now : Nat) (d : JobDoc) : Prop :=
  d.status = JobStatus.pending ∧ d.visibleAt ≤ now ∧
    d.lockedUntil < now ∧ d.attempts < d.maxAttempts

instance (now : Nat) (d : JobDoc) : Decidable (specEligible now d) := by
  unfold specEligible
  infer_instance

/-- A one-job table store. -/
def singletonTable (d : JobDoc) : TableStore := { jobs := [d], logs := [] }

/-- The redis hash holding a fully-populated job (what `enqueue` and the
lifecycle writes leave in `job:{id}`). -/
def toRHash (d : JobDoc) : RHash :=
  { id := some d.id, queue := some d.queue, payload := some d.payload,
    attempts := some d.attempts, maxAttempts := some d.maxAttempts,
    visibleAt := some d.visibleAt, lockedUntil := some d.lockedUntil,
    createdAt := some d.createdAt, updatedAt := some d.updatedAt,
    status := some d.status, meta := d.meta }

/-- The pending-set entries for one job in a consistent redis store: the
id is in `queue:pending:{q}` (scored by `visibleAt`) exactly when the
job's status is pending — the invariant every adapter operation
maintains. -/
def pendEntries (d : JobDoc) : List ZEntry :=
  if d.status = JobStatus.pending then
    [{ member := d.id, score := d.visibleAt }]
  else []

/-- A consistent one-job redis store. -/
def redisSingleton (d : JobDoc) : RedisStore :=
  { jobs := [(d.id, toRHash d)], pendingZ := [(d.queue, pendEntries d)],
    processingZ := [], logs := [] }

/-- A generic job used to build concrete stores. -/
def mkJob (i : String) (ca va lu att mx : Nat) (st : JobStatus) :
    JobDoc :=
  { id := i, queue := "q", payload := "p", attempts := att,
    maxAttempts := mx, visibleAt := va, lockedUntil := lu,
    createdAt := ca, updatedAt := ca, status := st, meta := none }

/-- A consistent two-job redis store on queue `"q"`: job `"a"` created
at `ca` but visible at `va`, job `"b"` created at `cb` and visible at
`vb`; both pending, unlocked, with attempts `0 < 3`. -/
def redisPairStore (ca va cb vb : Nat) : RedisStore :=
  { jobs := [("a", toRHash (mkJob "a" ca va 0 0 3 .pending)),
             ("b", toRHash (mkJob "b" cb vb 0 0 3 .pending))],
    pendingZ := [("q", [{ member := "a", score := va },
                        { member := "b", score := vb }])],
    processingZ := [], logs := [] }

/-! ### Lemmas about the sort helper -/

theorem mem_insertLe {α : Type} (le : α → α → Bool) (a x : α)
    (l : List α) : x ∈ insertLe le a l ↔ x = a ∨ x ∈ l := by
  induction l with
  | nil => simp [insertLe]
  | cons b l ih =>
    by_cases h : le a b = true
    · simp [insertLe, h]
    · simp only [insertLe, if_neg h, List.mem_cons, ih]
      tauto

theorem mem_sortLe {α : Type} (le : α → α → Bool) (x : α) (l : List α) :
    x ∈ sortLe le l ↔ x ∈ l := by
  induction l with
  | nil => simp [sortLe]
  | cons a l ih => simp [sortLe, mem_insertLe, ih]

theorem pairwise_insertLe {α : Type} {le : α → α → Bool}
    (htot : ∀ a b, le a b = true ∨ le b a = true)
    (htrans : ∀ a b c, le a b = true → le b c = true → le a c = true)
    (a : α) (l : List α) (h : l.Pairwise fun x y => le x y = true) :
    (insertLe le a l).Pairwise fun x y => le x y = true := by
  induction l with
  | nil => simp [insertLe]
  | cons b l ih =>
    rcases List.pairwise_cons.1 h with ⟨hb, hl⟩
    by_cases hab : le a b = true
    · rw [insertLe, if_pos hab]
      refine List.pairwise_cons.2 ⟨?_, h⟩
      intro x hx
      rcases List.mem_cons.1 hx with rfl | hx
      · exact hab
      · exact htrans a b x hab (hb x hx)
    · rw [insertLe, if_neg hab]
      refine List.pairwise_cons.2 ⟨?_, ih hl⟩
      intro x hx
      rcases (mem_insertLe le a x l).1 hx with rfl | hx
      · exact (htot _ b).resolve_left hab
      · exact hb x hx

theorem pairwise_sortLe {α : Type} {le : α → α → Bool}
    (htot : ∀ a b, le a b = true ∨ le b a = true)
    (htrans : ∀ a b c, le a b = true → le b c = true → le a c = true)
    (l : List α) :
    (sortLe le l).Pairwise fun x y => le x y = true := by
  induction l with
  | nil => simp [sortLe]
  | cons a l ih => exact pairwise_insertLe htot htrans a _ ih

theorem sortLe_head_min {α : Type} {le : α → α → Bool}
    (htot : ∀ a b, le a b = true ∨ le b a = true)
    (htrans : ∀ a b c, le a b = true → le b c = true → le a c = true)
    {l : List α} {m : α} {rest : List α}
    (h : sortLe le l = m :: rest) :
    m ∈ l ∧ ∀ x ∈ l, le m x = true := by
  have hm : m ∈ l := by
    have : m ∈ sortLe le l := by
      rw [h]
      exact List.mem_cons_self m rest
    exact (mem_sortLe le m l).1 this
  refine ⟨hm, fun x hx => ?_⟩
  have hx2 : x ∈ sortLe le l := (mem_sortLe le x l).2 hx
  rw [h] at hx2
  rcases List.mem_cons.1 hx2 with rfl | hx2
  · exact (htot x x).elim id id
  · have hp := pairwise_sortLe htot htrans l
    rw [h] at hp
    exact (List.pairwise_cons.1 hp).1 x hx2

theorem createdAtLe_total (a b : JobDoc) :
    createdAtLe a b = true ∨ createdAtLe b a = true := by
  simp only [createdAtLe, decide_eq_true_eq]
  exact Nat.le_total a.createdAt b.createdAt

theorem createdAtLe_trans (a b c : JobDoc) (h1 : createdAtLe a b = true)
    (h2 : createdAtLe b c = true) : createdAtLe a c = true := by
  simp only [createdAtLe, decide_eq_true_eq] at h1 h2 ⊢
  exact Nat.le_trans h1 h2

theorem logCreatedAtGe_total (a b : JobLogDoc) :
    logCreatedAtGe a b = true ∨ logCreatedAtGe b a = true := by
  simp only [logCreatedAtGe, decide_eq_true_eq]
  exact (Nat.le_total b.createdAt a.createdAt)

theorem logCreatedAtGe_trans (a b c : JobLogDoc)
    (h1 : logCreatedAtGe a b = true) (h2 : logCreatedAtGe b c = true) :
    logCreatedAtGe a c = true := by
  simp only [logCreatedAtGe, decide_eq_true_eq] at h1 h2 ⊢
  exact Nat.le_trans h2 h1

/-! ### Lemmas about the association-list keyspace -/

theorem lookupKey_nil {α : Type} (k : String) :
    lookupKey k ([] : List (String × α)) = none := rfl

theorem lookupKey_cons {α : Type} (k : String) (p : String × α)
    (l : List (String × α)) :
    lookupKey k (p :: l) =
      if p.1 == k then some p.2 else lookupKey k l := by
  cases hpk : p.1 == k
  · simp [lookupKey, List.find?, hpk]
  · simp [lookupKey, List.find?, hpk]

theorem lookupKey_setKey_self {α : Type} (k : String) (v : α)
    (l : List (String × α)) : lookupKey k (setKey k v l) = some v := by
  induction l with
  | nil => simp [setKey, lookupKey_cons]
  | cons p l ih =>
    by_cases h : p.1 == k
    · simp [setKey, h, lookupKey_cons]
    · simp [setKey, h, lookupKey_cons, ih]

theorem lookupKey_setKey_ne {α : Type} {k k2 : String} (v : α)
    (l : List (String × α)) (h : k2 ≠ k) :
    lookupKey k2 (setKey k v l) = lookupKey k2 l := by
  induction l with
  | nil =>
    simp [setKey, lookupKey_cons, lookupKey_nil, beq_iff_eq, Ne.symm h]
  | cons p l ih =>
    by_cases hp : p.1 = k
    · subst hp
      simp [setKey, lookupKey_cons, beq_iff_eq, Ne.symm h]
    · simp [setKey, lookupKey_cons, beq_iff_eq, hp, ih]

theorem setKey_setKey {α : Type} (k : String) (v v2 : α)
    (l : List (String × α)) :
    setKey k v (setKey k v2 l) = setKey k v l := by
  induction l with
  | nil => simp [setKey]
  | cons p l ih =>
    by_cases h : p.1 == k
    · simp [setKey, h]
    · simp [setKey, h, ih]

theorem lookupKey_delKey_self {α : Type} (k : String)
    (l : List (String × α)) : lookupKey k (delKey k l) = none := by
  induction l with
  | nil => rfl
  | cons p l ih =>
    by_cases h : p.1 == k
    · simpa [delKey, h] using ih
    · simpa [delKey, h, lookupKey_cons] using ih

theorem delKey_delKey {α : Type} (k : String) (l : List (String × α)) :
    delKey k (delKey k l) = delKey k l := by
  simp only [delKey, List.filter_filter, Bool.and_self]

theorem delKey_of_lookup_none {α : Type} (k : String)
    (l : List (String × α)) (h : lookupKey k l = none) :
    delKey k l = l := by
  induction l with
  | nil => rfl
  | cons p l ih =>
    rw [lookupKey_cons] at h
    by_cases hp : p.1 == k
    · simp [hp] at h
    · simp only [hp, if_false] at h
      simp [delKey, hp] at ih ⊢
      exact ih h

theorem setKey_of_lookup_none {α : Type} (k : String) (v : α)
    (l : List (String × α)) (h : lookupKey k l = none) :
    setKey k v l = l ++ [(k, v)] := by
  induction l with
  | nil => rfl
  | cons p l ih =>
    rw [lookupKey_cons] at h
    by_cases hp : p.1 == k
    · simp [hp] at h
    · simp only [hp, if_false] at h
      simp [setKey, hp, ih h]

theorem lookupKey_append_right {α : Type} (k : String)
    (l l2 : List (String × α)) (h : lookupKey k l = none) :
    lookupKey k (l ++ l2) = lookupKey k l2 := by
  induction l with
  | nil => simp
  | cons p l ih =>
    rw [lookupKey_cons] at h
    by_cases hp : p.1 == k
    · simp [hp] at h
    · simp only [hp, if_false] at h
      rw [List.cons_append, lookupKey_cons, if_neg (by simp_all)]
      exact ih h

/-! ### Lemmas about `updateById` and table rows -/

theorem updateById_of_not_mem (i : String) (f : JobDoc → JobDoc)
    (docs : List JobDoc) (h : ∀ d ∈ docs, d.id ≠ i) :
    updateById i f docs = docs := by
  induction docs with
  | nil => rfl
  | cons d docs ih =>
    simp only [updateById, List.map_cons]
    rw [if_neg (h d (List.mem_cons_self d docs))]
    have := ih fun x hx => h x (List.mem_cons_of_mem d hx)
    simpa [updateById] using this

theorem updateById_idem (i : String) (f : JobDoc → JobDoc)
    (hid : ∀ d, (f d).id = d.id) (hff : ∀ d, f (f d) = f d)
    (docs : List JobDoc) :
    updateById i f (updateById i f docs) = updateById i f docs := by
  induction docs with
  | nil => rfl
  | cons d docs ih =>
    simp only [updateById, List.map_cons] at ih ⊢
    by_cases h : d.id = i
    · rw [if_pos h, if_pos (by rw [hid d]; exact h), hff d]
      exact congrArg _ ih
    · rw [if_neg h, if_neg h]
      exact congrArg _ ih

theorem filter_id_eq_self (i : String) (docs : List JobDoc)
    (h : ∀ d ∈ docs, d.id ≠ i) :
    (docs.filter fun d => !(d.id == i)) = docs := by
  rw [List.filter_eq_self]
  intro d hd
  simpa using h d hd

theorem mem_filter_id (i : String) (docs : List JobDoc) :
    ∀ d ∈ docs.filter fun d => !(d.id == i), d.id ≠ i := by
  intro d hd
  have := (List.mem_filter.1 hd).2
  simpa using this

/-! ### Lemmas about the mongodb claim loop -/

theorem mongoCandidate_markFailed (queue : String) (now now2 : Nat)
    (d : JobDoc) : mongoCandidate queue now (markFailed now2 d) = false := by
  simp [mongoCandidate, markFailed]

theorem mongoCandidate_claimUpdate (queue : String) (now now2 vt : Nat)
    (d : JobDoc) :
    mongoCandidate queue now (claimUpdate now2 vt d) = false := by
  simp [mongoCandidate, claimUpdate]

theorem mongoFindCandidate_some {queue : String} {now : Nat}
    {docs : List JobDoc} {m : JobDoc}
    (h : mongoFindCandidate queue now docs = some m) :
    m ∈ docs ∧ mongoCandidate queue now m = true ∧
      ∀ d ∈ docs, mongoCandidate queue now d = true →
        m.createdAt ≤ d.createdAt := by
  unfold mongoFindCandidate at h
  cases hs : sortLe createdAtLe (docs.filter (mongoCandidate queue now))
    with
  | nil => rw [hs] at h; cases h
  | cons a t =>
    rw [hs] at h
    have ham : a = m := by simpa using h
    subst ham
    obtain ⟨hmem, hall⟩ :=
      sortLe_head_min createdAtLe_total createdAtLe_trans hs
    have hma := List.mem_filter.1 hmem
    refine ⟨hma.1, hma.2, ?_⟩
    intro d hd hcd
    have := hall d (List.mem_filter.2 ⟨hd, hcd⟩)
    simpa [createdAtLe] using this

theorem lb_updateById {queue : String} {now : Nat} {t : Nat}
    (f : JobDoc → JobDoc)
    (hf : ∀ d, mongoCandidate queue now (f d) = false) (i : String)
    (docs : List JobDoc)
    (hlb : ∀ d ∈ docs, mongoCandidate queue now d = true →
      t ≤ d.createdAt) :
    ∀ d ∈ updateById i f docs, mongoCandidate queue now d = true →
      t ≤ d.createdAt := by
  intro d hd hcd
  simp only [updateById, List.mem_map] at hd
  obtain ⟨d0, hd0, rfl⟩ := hd
  by_cases hid : d0.id = i
  · rw [if_pos hid] at hcd
    rw [hf d0] at hcd
    cases hcd
  · rw [if_neg hid] at hcd ⊢
    exact hlb d0 hd0 hcd

theorem mongoLoop_out_lb (queue : String) (now vt t : Nat) :
    ∀ (fuel : Nat) (docs : List JobDoc),
      (∀ d ∈ docs, mongoCandidate queue now d = true →
        t ≤ d.createdAt) →
      ∀ j ∈ (mongoDequeueLoop queue now vt fuel docs).1,
        t ≤ j.createdAt := by
  intro fuel
  induction fuel with
  | zero =>
    intro docs _ j hj
    simp [mongoDequeueLoop] at hj
  | succ fuel ih =>
    intro docs hlb j hj
    cases hc : mongoFindCandidate queue now docs with
    | none => simp [mongoDequeueLoop, hc] at hj
    | some cand =>
      obtain ⟨hcmem, hccand, _⟩ := mongoFindCandidate_some hc
      simp only [mongoDequeueLoop, hc] at hj
      by_cases hex : cand.maxAttempts ≤ cand.attempts
      · rw [if_pos hex] at hj
        exact ih _ (lb_updateById _
          (fun d => mongoCandidate_markFailed queue now now d) _ _ hlb)
          j hj
      · rw [if_neg hex] at hj
        simp only [List.mem_cons] at hj
        rcases hj with rfl | hj
        · have : t ≤ cand.createdAt := hlb cand hcmem hccand
          simpa [claimUpdate] using this
        · exact ih _ (lb_updateById _
            (fun d => mongoCandidate_claimUpdate queue now now vt d) _ _
            hlb) j hj

theorem mongoLoop_sorted (queue : String) (now vt : Nat) :
    ∀ (fuel : Nat) (docs : List JobDoc),
      ((mongoDequeueLoop queue now vt fuel docs).1).Pairwise
        fun a b => a.createdAt ≤ b.createdAt := by
  intro fuel
  induction fuel with
  | zero => intro docs; simp [mongoDequeueLoop]
  | succ fuel ih =>
    intro docs
    cases hc : mongoFindCandidate queue now docs with
    | none => simp [mongoDequeueLoop, hc]
    | some cand =>
      obtain ⟨hcmem, hccand, hcmin⟩ := mongoFindCandidate_some hc
      simp only [mongoDequeueLoop, hc]
      by_cases hex : cand.maxAttempts ≤ cand.attempts
      · rw [if_pos hex]
        exact ih _
      · rw [if_neg hex]
        refine List.pairwise_cons.2 ⟨?_, ih _⟩
        intro j hj
        have hlb := lb_updateById (claimUpdate now vt)
          (fun d => mongoCandidate_claimUpdate queue now now vt d)
          cand.id docs hcmin
        have := mongoLoop_out_lb queue now vt cand.createdAt fuel _ hlb
          j hj
        simpa [claimUpdate] using this

theorem exhausted_updateById {i : String} (f : JobDoc → JobDoc)
    (hid : ∀ d, (f d).id = d.id)
    (hatt : ∀ d, d.maxAttempts ≤ d.attempts →
      (f d).maxAttempts ≤ (f d).attempts) (i2 : String)
    (docs : List JobDoc)
    (hi : ∀ d ∈ docs, d.id = i → d.maxAttempts ≤ d.attempts) :
    ∀ d ∈ updateById i2 f docs, d.id = i →
      d.maxAttempts ≤ d.attempts := by
  intro d hd hdi
  simp only [updateById, List.mem_map] at hd
  obtain ⟨d0, hd0, rfl⟩ := hd
  by_cases h2 : d0.id = i2
  · rw [if_pos h2] at hdi ⊢
    rw [hid d0] at hdi
    exact hatt d0 (hi d0 hd0 hdi)
  · rw [if_neg h2] at hdi ⊢
    exact hi d0 hd0 hdi

theorem mongoLoop_not_exhausted (queue : String) (now vt : Nat)
    (i : String) :
    ∀ (fuel : Nat) (docs : List JobDoc),
      (∀ d ∈ docs, d.id = i → d.maxAttempts ≤ d.attempts) →
      ∀ j ∈ (mongoDequeueLoop queue now vt fuel docs).1, j.id ≠ i := by
  intro fuel
  induction fuel with
  | zero =>
    intro docs _ j hj
    simp [mongoDequeueLoop] at hj
  | succ fuel ih =>
    intro docs hi j hj
    cases hc : mongoFindCandidate queue now docs with
    | none => simp [mongoDequeueLoop, hc] at hj
    | some cand =>
      obtain ⟨hcmem, _, _⟩ := mongoFindCandidate_some hc
      simp only [mongoDequeueLoop, hc] at hj
      by_cases hex : cand.maxAttempts ≤ cand.attempts
      · rw [if_pos hex] at hj
        refine ih _ ?_ j hj
        exact exhausted_updateById (markFailed now) (fun d => rfl)
          (fun d h => by simpa [markFailed] using h) cand.id docs hi
      · rw [if_neg hex] at hj
        simp only [List.mem_cons] at hj
        rcases hj with rfl | hj
        · intro hcontra
          have : cand.id = i := by simpa [claimUpdate] using hcontra
          exact hex (hi cand hcmem this)
        · refine ih _ ?_ j hj
          refine exhausted_updateById (claimUpdate now vt) (fun d => rfl)
            ?_ cand.id docs hi
          intro d h
          simp only [claimUpdate]
          exact Nat.le_trans h (Nat.le_succ _)

/-! ### Frame lemmas for absent jobs and the redis ack path -/

theorem nackVisibleAt_getD (now : Nat) (dm : Option Nat) :
    nackVisibleAt now dm = now + dm.getD 0 := by
  cases dm <;> simp [nackVisibleAt]

theorem redisAck_delete_eq (now : Nat) (j : String) (r : RedisStore) :
    redisAck now true j r = { r with jobs := delKey j r.jobs } := by
  have h : redisHGetAll j { r with jobs := delKey j r.jobs } =
      emptyRHash := by
    simp [redisHGetAll, lookupKey_delKey_self]
  simp only [redisAck, if_pos rfl, h, emptyRHash]
  simp

/-- All six table-store operations are no-ops on an id that matches no
row (the code's missing-job paths for the mongodb and drizzle
adapters). -/
theorem tableAbsent_ops (now : Nat) (del : Bool) (o : NackOptions)
    (logId jobId e : String) (dat : Option String) (s : TableStore)
    (h : ∀ d ∈ s.jobs, d.id ≠ jobId) :
    mongoAck now del jobId s = s ∧ mongoNack now o jobId s = s ∧
    mongoLogEvent now logId jobId e dat s = s ∧
    drizzleAck now del jobId s = s ∧ drizzleNack now o jobId s = s ∧
    drizzleLogEvent now logId jobId e dat s = s := by
  have hfind : s.jobs.find? (fun d => d.id == jobId) = none := by
    rw [List.find?_eq_none]
    intro d hd
    simpa using h d hd
  have hack : ∀ now2 : Nat, ∀ del2 : Bool,
      (if del2 = true then
          { s with jobs := s.jobs.filter fun d => !(d.id == jobId) }
        else
          { s with jobs :=
              updateById jobId (completedUpdate now2) s.jobs }) = s := by
    intro now2 del2
    by_cases hdel : del2 = true
    · rw [if_pos hdel, filter_id_eq_self jobId s.jobs h]
    · rw [if_neg hdel, updateById_of_not_mem jobId _ s.jobs h]
  have hnack : ∀ now2 : Nat, ∀ o2 : NackOptions,
      (if o2.requeue ≠ some false then
          { s with jobs :=
              updateById jobId (requeueUpdate now2 o2.delayMs) s.jobs }
        else
          { s with jobs :=
              updateById jobId (failedUpdate now2) s.jobs }) = s := by
    intro now2 o2
    by_cases hr : o2.requeue ≠ some false
    · rw [if_pos hr, updateById_of_not_mem jobId _ s.jobs h]
    · rw [if_neg hr, updateById_of_not_mem jobId _ s.jobs h]
  refine ⟨hack now del, hnack now o, ?_, hack now del, hnack now o, ?_⟩
  · simp [mongoLogEvent, mongoGetJob, hfind]
  · simp [drizzleLogEvent, drizzleGetJob, hfind]

/-- The redis operations on a missing job hash: `nack`, `logEvent` and
`ack` with `deleteAfterAck` are no-ops; `ack` without `deleteAfterAck`
appends a stub hash that `getJob` still reports as absent. -/
theorem redisMissing_ops (now : Nat) (o : NackOptions)
    (logId jobId e : String) (dat : Option String) (r : RedisStore)
    (h : lookupKey jobId r.jobs = none) :
    redisNack now o jobId r = r ∧
    redisLogEvent now logId jobId e dat r = r ∧
    redisAck now true jobId r = r ∧
    (redisAck now false jobId r).jobs =
      r.jobs ++ [(jobId, redisAckHash now emptyRHash)] ∧
    redisGetJob jobId (redisAck now false jobId r) = none := by
  have hget : redisHGetAll jobId r = emptyRHash := by
    simp [redisHGetAll, h]
  refine ⟨?_, ?_, ?_, ?_, ?_⟩
  · simp [redisNack, hget, emptyRHash]
  · simp [redisLogEvent, hget, emptyRHash]
  · rw [redisAck_delete_eq, delKey_of_lookup_none jobId r.jobs h]
  · simp only [redisAck, if_neg Bool.false_ne_true, hget]
    exact setKey_of_lookup_none jobId _ r.jobs h
  · have hjobs : (redisAck now false jobId r).jobs =
        r.jobs ++ [(jobId, redisAckHash now emptyRHash)] := by
      simp only [redisAck, if_neg Bool.false_ne_true, hget]
      exact setKey_of_lookup_none jobId _ r.jobs h
    have hlook : lookupKey jobId (redisAck now false jobId r).jobs =
        some (redisAckHash now emptyRHash) := by
      rw [hjobs, lookupKey_append_right jobId _ _ h, lookupKey_cons]
      simp
    simp [redisGetJob, redisHGetAll, hlook, redisAckHash, emptyRHash]

/-! ### Claim theorems -/

/-- C6: for every store and job id, calling `ack` twice with the same
`deleteAfterAck` option (at the same timestamp) produces exactly the
same store as calling it once — the second call is a no-op, not an
error — in the mongodb, drizzle and redis adapters. -/
theorem ack_idempotent :
    ∀ (now : Nat) (del : Bool) (jobId : String) (s : TableStore)
      (r : RedisStore),
      mongoAck now del jobId (mongoAck now del jobId s) =
        mongoAck now del jobId s ∧
      drizzleAck now del jobId (drizzleAck now del jobId s) =
        drizzleAck now del jobId s ∧
      redisAck now del jobId (redisAck now del jobId r) =
        redisAck now del jobId r := by
  intro now del jobId s r
  have hmongo : mongoAck now del jobId (mongoAck now del jobId s) =
      mongoAck now del jobId s := by
    by_cases hdel : del = true
    · simp only [mongoAck, if_pos hdel]
      rw [List.filter_filter]
      simp
    · simp only [mongoAck, if_neg hdel]
      rw [updateById_idem jobId (completedUpdate now) (fun d => rfl)
        (fun d => rfl) s.jobs]
  have hdrizzle : drizzleAck now del jobId (drizzleAck now del jobId s) =
      drizzleAck now del jobId s := by
    by_cases hdel : del = true
    · simp only [drizzleAck, if_pos hdel]
      rw [List.filter_filter]
      simp
    · simp only [drizzleAck, if_neg hdel]
      rw [updateById_idem jobId (completedUpdate now) (fun d => rfl)
        (fun d => rfl) s.jobs]
  have hredis : redisAck now del jobId (redisAck now del jobId r) =
      redisAck now del jobId r := by
    by_cases hdel : del = true
    · subst hdel
      rw [redisAck_delete_eq, redisAck_delete_eq]
      simp [delKey_delKey]
    · have hfalse : del = false := by
        cases del
        · rfl
        · exact absurd rfl hdel
      subst hfalse
      simp only [redisAck, if_neg Bool.false_ne_true]
      have hget : redisHGetAll jobId
          { r with
            jobs := setKey jobId
              (redisAckHash now (redisHGetAll jobId r)) r.jobs } =
          redisAckHash now (redisHGetAll jobId r) := by
        simp [redisHGetAll, lookupKey_setKey_self]
      rw [hget, setKey_setKey]
      rfl
  exact ⟨hmongo, hdrizzle, hredis⟩

/-- C7 (amended): `ack`, `nack` and `logEvent` on a job id that is not
in the store complete without error; they leave the store unchanged in
the mongodb and drizzle adapters, and so do redis `nack`, `logEvent`
and `ack` with `deleteAfterAck` — but redis `ack` **without**
`deleteAfterAck` appends a stub hash for the missing id (which
`getJob` still reports as absent). -/
theorem missing_job_ops :
    (∀ (now : Nat) (del : Bool) (o : NackOptions)
       (logId jobId e : String) (dat : Option String) (s : TableStore),
       (∀ d ∈ s.jobs, d.id ≠ jobId) →
       mongoAck now del jobId s = s ∧ mongoNack now o jobId s = s ∧
       mongoLogEvent now logId jobId e dat s = s ∧
       drizzleAck now del jobId s = s ∧ drizzleNack now o jobId s = s ∧
       drizzleLogEvent now logId jobId e dat s = s) ∧
    (∀ (now : Nat) (o : NackOptions) (logId jobId e : String)
       (dat : Option String) (r : RedisStore),
       lookupKey jobId r.jobs = none →
       redisNack now o jobId r = r ∧
       redisLogEvent now logId jobId e dat r = r ∧
       redisAck now true jobId r = r ∧
       (redisAck now false jobId r).jobs =
         r.jobs ++ [(jobId, redisAckHash now emptyRHash)] ∧
       redisGetJob jobId (redisAck now false jobId r) = none) := by
  constructor
  · intro now del o logId jobId e dat s h
    exact tableAbsent_ops now del o logId jobId e dat s h
  · intro now o logId jobId e dat r h
    exact redisMissing_ops now o logId jobId e dat r h

/-- C7 witness: instantiation of `missing_job_ops` at concrete missing
ids on concrete stores. -/
theorem missing_job_ops_witness :
    mongoAck 5 false "x" { jobs := [], logs := [] } =
      { jobs := [], logs := [] } ∧
    redisNack 5 { requeue := none, delayMs := none } "x"
        { jobs := [], pendingZ := [], processingZ := [], logs := [] } =
      { jobs := [], pendingZ := [], processingZ := [], logs := [] } := by
  have h1 := missing_job_ops.1 5 false
    { requeue := none, delayMs := none } "lg" "x" "ev" none
    { jobs := [], logs := [] } (by intro d hd; cases hd)
  have h2 := missing_job_ops.2 5 { requeue := none, delayMs := none }
    "lg" "x" "ev" none
    { jobs := [], pendingZ := [], processingZ := [], logs := [] } rfl
  exact ⟨h1.1, h2.1⟩

/-- C7 counterexample: redis `ack` without `deleteAfterAck` on a job id
absent from an empty store does **not** leave the store unchanged — it
creates a stub hash for the id (the claim's "silent no-op in every
adapter" fails for redis ack). -/
theorem missing_job_redis_ack_writes :
    (redisAck 5 false "x"
        { jobs := [], pendingZ := [], processingZ := [], logs := [] }).jobs
      = [("x", redisAckHash 5 emptyRHash)] ∧
    redisAck 5 false "x"
        { jobs := [], pendingZ := [], processingZ := [], logs := [] } ≠
      { jobs := [], pendingZ := [], processingZ := [], logs := [] } := by
  decide

/-- C8: for attempts `n ≥ 1` the default backoff is exactly
`clamp(1000 * 2^(n-1), 0, 60000) = min (1000 * 2^(n-1)) 60000`
milliseconds, it is monotone in `n`, and it never exceeds 60000; it is
a pure function of `n`. -/
theorem defaultBackoff_formula_monotone_bounded :
    ∀ n : Nat, 1 ≤ n →
      defaultBackoff n = min (1000 * 2 ^ (n - 1)) 60000 ∧
      defaultBackoff n ≤ defaultBackoff (n + 1) ∧
      defaultBackoff n ≤ 60000 := by
  intro n _
  refine ⟨?_, ?_, ?_⟩
  · simp [defaultBackoff, clamp, Nat.zero_max, Nat.min_comm]
  · simp only [defaultBackoff, clamp, Nat.zero_max]
    refine min_le_min (Nat.le_refl _) ?_
    refine Nat.mul_le_mul_left _ (Nat.pow_le_pow_right (by norm_num) ?_)
    omega
  · simp only [defaultBackoff, clamp, Nat.zero_max]
    exact min_le_left _ _

/-- C8 witness: the backoff facts at `n = 3`
(`defaultBackoff 3 = 4000`). -/
theorem defaultBackoff_witness :
    1 ≤ 3 ∧
    (defaultBackoff 3 = min (1000 * 2 ^ (3 - 1)) 60000 ∧
      defaultBackoff 3 ≤ defaultBackoff (3 + 1) ∧
      defaultBackoff 3 ≤ 60000) :=
  ⟨by decide, defaultBackoff_formula_monotone_bounded 3 (by decide)⟩

/-- C9 (amended): after `ack(jobId, deleteAfterAck := true)` the job
row/hash is removed and `getJob` reports it absent, in the mongodb and
redis adapters; every subsequent `ack`/`nack`/`logEvent` on that id
leaves the store unchanged, **except** redis `ack` without
`deleteAfterAck`, which appends a stub hash (still absent for
`getJob`); redis also leaves the processing-set entry behind (its
cleanup reads the hash only after deleting it). -/
theorem ack_delete_then_ops :
    ∀ (now now2 : Nat) (del : Bool) (o : NackOptions)
      (logId jobId e : String) (dat : Option String) (s : TableStore)
      (r : RedisStore),
      mongoGetJob jobId (mongoAck now true jobId s) = none ∧
      mongoAck now2 del jobId (mongoAck now true jobId s) =
        mongoAck now true jobId s ∧
      mongoNack now2 o jobId (mongoAck now true jobId s) =
        mongoAck now true jobId s ∧
      mongoLogEvent now2 logId jobId e dat (mongoAck now true jobId s) =
        mongoAck now true jobId s ∧
      redisGetJob jobId (redisAck now true jobId r) = none ∧
      redisNack now2 o jobId (redisAck now true jobId r) =
        redisAck now true jobId r ∧
      redisLogEvent now2 logId jobId e dat (redisAck now true jobId r) =
        redisAck now true jobId r ∧
      redisAck now2 true jobId (redisAck now true jobId r) =
        redisAck now true jobId r ∧
      (redisAck now2 false jobId (redisAck now true jobId r)).jobs =
        (redisAck now true jobId r).jobs ++
          [(jobId, redisAckHash now2 emptyRHash)] ∧
      redisGetJob jobId
          (redisAck now2 false jobId (redisAck now true jobId r)) =
        none ∧
      (redisAck now true jobId r).processingZ = r.processingZ := by
  intro now now2 del o logId jobId e dat s r
  have habs : ∀ d ∈ (mongoAck now true jobId s).jobs, d.id ≠ jobId := by
    simp only [mongoAck, if_pos rfl]
    exact mem_filter_id jobId s.jobs
  have ht := tableAbsent_ops now2 del o logId jobId e dat
    (mongoAck now true jobId s) habs
  have hrlook : lookupKey jobId (redisAck now true jobId r).jobs =
      none := by
    rw [redisAck_delete_eq]
    exact lookupKey_delKey_self jobId r.jobs
  have hr := redisMissing_ops now2 o logId jobId e dat
    (redisAck now true jobId r) hrlook
  have hmget : mongoGetJob jobId (mongoAck now true jobId s) = none := by
    simp only [mongoGetJob]
    rw [List.find?_eq_none]
    intro d hd
    simpa using habs d hd
  have hrget : redisGetJob jobId (redisAck now true jobId r) = none := by
    simp [redisGetJob, redisHGetAll, hrlook, emptyRHash]
  have hz : (redisAck now true jobId r).processingZ = r.processingZ := by
    rw [redisAck_delete_eq]
  exact ⟨hmget, ht.1, ht.2.1, ht.2.2.1, hrget, hr.1, hr.2.1, hr.2.2.1,
    hr.2.2.2.1, hr.2.2.2.2, hz⟩

/-- C9 counterexample: in the redis adapter, after
`enqueue; dequeue; ack with deleteAfterAck`, `getJob` is absent but
a subsequent plain `ack` **changes** the store's job data (it writes a
stub hash), contradicting the claim that any subsequent ack leaves job
data unchanged. -/
theorem ack_delete_then_ack_changes_redis :
    redisGetJob "j"
        (redisAck 2 true "j"
          ((redisDequeue 1 100 "q" 1
            ((redisEnqueue 0 "j" "q" "p" 3 none none
              { jobs := [], pendingZ := [], processingZ := [],
                logs := [] }).2)).2)) = none ∧
    redisAck 3 false "j"
        (redisAck 2 true "j"
          ((redisDequeue 1 100 "q" 1
            ((redisEnqueue 0 "j" "q" "p" 3 none none
              { jobs := [], pendingZ := [], processingZ := [],
                logs := [] }).2)).2)) ≠
      redisAck 2 true "j"
        ((redisDequeue 1 100 "q" 1
          ((redisEnqueue 0 "j" "q" "p" 3 none none
            { jobs := [], pendingZ := [], processingZ := [],
              logs := [] }).2)).2) := by
  decide

/-- C10: in the mongodb and drizzle adapters, `getLogs` returns exactly
the job's audit entries (those whose `jobId` matches), sorted by
`createdAt` in descending (reverse-chronological) order. -/
theorem getLogs_reverse_chronological :
    ∀ (jobId : String) (s : TableStore),
      ((mongoGetLogs jobId s).Pairwise fun a b =>
        b.createdAt ≤ a.createdAt) ∧
      (∀ l, l ∈ mongoGetLogs jobId s ↔ l ∈ s.logs ∧ l.jobId = jobId) ∧
      ((drizzleGetLogs jobId s).Pairwise fun a b =>
        b.createdAt ≤ a.createdAt) ∧
      (∀ l, l ∈ drizzleGetLogs jobId s ↔
        l ∈ s.logs ∧ l.jobId = jobId) := by
  intro jobId s
  have hp := pairwise_sortLe logCreatedAtGe_total logCreatedAtGe_trans
    (s.logs.filter fun l => l.jobId == jobId)
  have hps : (sortLe logCreatedAtGe
      (s.logs.filter fun l => l.jobId == jobId)).Pairwise
      fun a b => b.createdAt ≤ a.createdAt := by
    refine hp.imp ?_
    intro a b h
    simpa [logCreatedAtGe] using h
  have hmem : ∀ l, l ∈ sortLe logCreatedAtGe
      (s.logs.filter fun l => l.jobId == jobId) ↔
      l ∈ s.logs ∧ l.jobId = jobId := by
    intro l
    rw [mem_sortLe, List.mem_filter]
    simp
  exact ⟨hps, hmem, hps, hmem⟩

theorem map_lockedUntil_updateById (i : String) (now : Nat)
    (docs : List JobDoc) :
    ((updateById i (failedUpdate now) docs).map fun d => d.lockedUntil) =
      docs.map fun d => d.lockedUntil := by
  induction docs with
  | nil => rfl
  | cons d docs ih =>
    simp only [updateById, List.map_cons] at ih ⊢
    by_cases hid : d.id = i
    · rw [if_pos hid]
      exact congrArg _ ih
    · rw [if_neg hid]
      exact congrArg _ ih

/-- C5 (amended): for every job present in the store, `nack` with
`requeue` left at its default (anything but `some false`) sets
`status ← pending`, clears the lease (`lockedUntil ← 0`) and sets
`visibleAt ← now + delayMs` (`now` when `delayMs` is absent), in all
three adapters; `nack` with `requeue = false` sets `status ← failed`
but leaves `lockedUntil` exactly as it was (the lease is **not**
cleared). -/
theorem nack_state_semantics :
    (∀ (now : Nat) (o : NackOptions) (jobId : String) (s : TableStore),
       o.requeue ≠ some false →
       ∀ d ∈ (mongoNack now o jobId s).jobs, d.id = jobId →
         d.status = JobStatus.pending ∧ d.lockedUntil = 0 ∧
           d.visibleAt = now + o.delayMs.getD 0) ∧
    (∀ (now : Nat) (dm : Option Nat) (jobId : String) (s : TableStore),
       ((mongoNack now { requeue := some false, delayMs := dm } jobId
           s).jobs.map fun d => d.lockedUntil) =
         (s.jobs.map fun d => d.lockedUntil) ∧
       ∀ d ∈ (mongoNack now { requeue := some false, delayMs := dm }
           jobId s).jobs, d.id = jobId → d.status = JobStatus.failed) ∧
    (∀ (now : Nat) (o : NackOptions) (jobId : String) (s : TableStore),
       o.requeue ≠ some false →
       ∀ d ∈ (drizzleNack now o jobId s).jobs, d.id = jobId →
         d.status = JobStatus.pending ∧ d.lockedUntil = 0 ∧
           d.visibleAt = now + o.delayMs.getD 0) ∧
    (∀ (now : Nat) (dm : Option Nat) (jobId : String) (s : TableStore),
       ((drizzleNack now { requeue := some false, delayMs := dm } jobId
           s).jobs.map fun d => d.lockedUntil) =
         (s.jobs.map fun d => d.lockedUntil) ∧
       ∀ d ∈ (drizzleNack now { requeue := some false, delayMs := dm }
           jobId s).jobs, d.id = jobId → d.status = JobStatus.failed) ∧
    (∀ (now : Nat) (o : NackOptions) (jobId : String) (r : RedisStore)
       (h : RHash), lookupKey jobId r.jobs = some h →
       h.id.isSome = true → o.requeue ≠ some false →
       lookupKey jobId (redisNack now o jobId r).jobs =
         some { h with
                status := some JobStatus.pending,
                lockedUntil := some 0,
                visibleAt := some (now + o.delayMs.getD 0),
                updatedAt := some now }) ∧
    (∀ (now : Nat) (dm : Option Nat) (jobId : String) (r : RedisStore)
       (h : RHash), lookupKey jobId r.jobs = some h →
       h.id.isSome = true →
       lookupKey jobId
           (redisNack now { requeue := some false, delayMs := dm }
             jobId r).jobs =
         some { h with
                status := some JobStatus.failed,
                updatedAt := some now }) := by
  have hreq : ∀ (now : Nat) (o : NackOptions) (jobId : String)
      (s : TableStore), o.requeue ≠ some false →
      ∀ d ∈ (if o.requeue ≠ some false then
          { s with jobs :=
              updateById jobId (requeueUpdate now o.delayMs) s.jobs }
        else
          { s with jobs :=
              updateById jobId (failedUpdate now) s.jobs }).jobs,
        d.id = jobId →
        d.status = JobStatus.pending ∧ d.lockedUntil = 0 ∧
          d.visibleAt = now + o.delayMs.getD 0 := by
    intro now o jobId s hr d hd hdi
    rw [if_pos hr] at hd
    simp only [updateById, List.mem_map] at hd
    obtain ⟨d0, hd0, rfl⟩ := hd
    by_cases hid : d0.id = jobId
    · rw [if_pos hid]
      refine ⟨rfl, rfl, ?_⟩
      exact nackVisibleAt_getD now o.delayMs
    · rw [if_neg hid] at hdi
      exact absurd hdi hid
  have hfail : ∀ (now : Nat) (dm : Option Nat) (jobId : String)
      (s : TableStore),
      (((if ({ requeue := some false, delayMs := dm } :
            NackOptions).requeue ≠ some false then
          { s with jobs :=
              updateById jobId (requeueUpdate now dm) s.jobs }
        else
          { s with jobs :=
              updateById jobId (failedUpdate now) s.jobs } :
          TableStore)).jobs.map
        fun d => d.lockedUntil) =
        (s.jobs.map fun d => d.lockedUntil) ∧
      ∀ d ∈ ((if ({ requeue := some false, delayMs := dm } :
            NackOptions).requeue ≠ some false then
          { s with jobs :=
              updateById jobId (requeueUpdate now dm) s.jobs }
        else
          { s with jobs :=
              updateById jobId (failedUpdate now) s.jobs } :
          TableStore)).jobs,
        d.id = jobId → d.status = JobStatus.failed := by
    intro now dm jobId s
    rw [if_neg (by simp)]
    constructor
    · exact map_lockedUntil_updateById jobId now s.jobs
    · intro d hd hdi
      simp only [updateById, List.mem_map] at hd
      obtain ⟨d0, hd0, rfl⟩ := hd
      by_cases hid : d0.id = jobId
      · rw [if_pos hid]
        rfl
      · rw [if_neg hid] at hdi
        exact absurd hdi hid
  refine ⟨?_, ?_, ?_, ?_, ?_, ?_⟩
  · intro now o jobId s hr
    exact hreq now o jobId s hr
  · intro now dm jobId s
    exact hfail now dm jobId s
  · intro now o jobId s hr
    exact hreq now o jobId s hr
  · intro now dm jobId s
    exact hfail now dm jobId s
  · intro now o jobId r h hlook hid hr
    have hget : redisHGetAll jobId r = h := by
      simp [redisHGetAll, hlook]
    have hnone : h.id.isNone = false := by
      cases hh : h.id
      · rw [hh] at hid
        cases hid
      · rfl
    simp only [redisNack, hget, hnone, Bool.false_eq_true, if_false,
      if_pos hr]
    rw [lookupKey_setKey_self, nackVisibleAt_getD]
  · intro now dm jobId r h hlook hid
    have hget : redisHGetAll jobId r = h := by
      simp [redisHGetAll, hlook]
    have hnone : h.id.isNone = false := by
      cases hh : h.id
      · rw [hh] at hid
        cases hid
      · rfl
    simp only [redisNack, hget, hnone, Bool.false_eq_true, if_false]
    rw [if_neg (fun hc => hc rfl), lookupKey_setKey_self]

/-- C5 witness: `nack` with explicit requeue on a present job, and
`nack` with requeue false on a present locked job, at concrete inputs. -/
theorem nack_state_semantics_witness :
    (∀ d ∈ (mongoNack 9 { requeue := some true, delayMs := some 4 } "a"
        (singletonTable (mkJob "a" 1 0 77 1 3 JobStatus.processing))).jobs,
      d.id = "a" →
        d.status = JobStatus.pending ∧ d.lockedUntil = 0 ∧
          d.visibleAt = 9 + (some 4 : Option Nat).getD 0) ∧
    lookupKey "a"
        (redisNack 9 { requeue := some false, delayMs := none } "a"
          (redisSingleton (mkJob "a" 1 0 77 1 3
            JobStatus.processing))).jobs =
      some { toRHash (mkJob "a" 1 0 77 1 3 JobStatus.processing) with
             status := some JobStatus.failed, updatedAt := some 9 } := by
  obtain ⟨h1, h2, h3, h4, h5, h6⟩ := nack_state_semantics
  constructor
  · exact h1 9 { requeue := some true, delayMs := some 4 } "a"
      (singletonTable (mkJob "a" 1 0 77 1 3 JobStatus.processing))
      (by decide)
  · exact h6 9 none "a"
      (redisSingleton (mkJob "a" 1 0 77 1 3 JobStatus.processing))
      (toRHash (mkJob "a" 1 0 77 1 3 JobStatus.processing))
      (by decide) (by decide)

/-- C5 counterexample: `nack` with requeue false at time 5 on a job whose
lease runs to 77 leaves `lockedUntil = 77` — the lease is not cleared,
contradicting the claim's "with the lease left cleared". -/
theorem nack_requeue_false_keeps_lease :
    ((mongoNack 5 { requeue := some false, delayMs := none } "a"
        (singletonTable
          (mkJob "a" 1 0 77 1 3 JobStatus.processing))).jobs.map
      fun d => (d.status, d.lockedUntil)) =
      [(JobStatus.failed, 77)] ∧ (77 : Nat) ≠ 0 := by
  decide

/-- Redis claim loop: if every hash stored under id `i` is exhausted
(`attempts ≥ maxAttempts`), the loop never claims `i` and never touches
its hash. -/
theorem redisGo_not_exhausted (now vt : Nat) (queue : String)
    (limit : Nat) (i : String) :
    ∀ (cands : List String) (s : RedisStore) (acc : List JobDoc),
      (∀ h, lookupKey i s.jobs = some h →
        h.maxAttempts.getD 0 ≤ h.attempts.getD 0) →
      (∀ j ∈ acc, j.id ≠ i) →
      (∀ j ∈ (redisDequeueGo now vt queue limit cands s acc).1,
        j.id ≠ i) ∧
      lookupKey i (redisDequeueGo now vt queue limit cands s acc).2.jobs
        = lookupKey i s.jobs := by
  intro cands
  induction cands with
  | nil =>
    intro s acc hinv hacc
    exact ⟨hacc, rfl⟩
  | cons jobId rest ih =>
    intro s acc hinv hacc
    simp only [redisDequeueGo]
    by_cases hlim : limit ≤ acc.length
    · rw [if_pos hlim]
      exact ⟨hacc, rfl⟩
    · rw [if_neg hlim]
      by_cases hidn : (redisHGetAll jobId s).id.isNone = true
      · rw [if_pos hidn]
        exact ih s acc hinv hacc
      · rw [if_neg hidn]
        have hsome : lookupKey jobId s.jobs =
            some (redisHGetAll jobId s) := by
          cases hl : lookupKey jobId s.jobs with
          | none =>
            exfalso
            apply hidn
            simp [redisHGetAll, hl, emptyRHash]
          | some h0 =>
            simp [redisHGetAll, hl]
        by_cases hskip :
            ((redisHGetAll jobId s).maxAttempts.getD 0 ≤
                (redisHGetAll jobId s).attempts.getD 0 ||
              now ≤ (redisHGetAll jobId s).lockedUntil.getD 0) = true
        · rw [if_pos hskip]
          exact ih s acc hinv hacc
        · rw [if_neg hskip]
          have hji : jobId ≠ i := by
            intro he
            apply hskip
            have := hinv (redisHGetAll jobId s) (he ▸ hsome)
            simp [this]
          have hframe : ∀ v, lookupKey i (setKey jobId v s.jobs) =
              lookupKey i s.jobs :=
            fun v => lookupKey_setKey_ne v s.jobs (Ne.symm hji)
          have hres := ih
            { s with
              jobs := setKey jobId
                (redisClaimHash now vt
                  ((redisHGetAll jobId s).attempts.getD 0)
                  (redisHGetAll jobId s)) s.jobs,
              pendingZ := modZ queue (zRem jobId) s.pendingZ,
              processingZ := modZ queue (zAdd jobId (now + vt))
                s.processingZ }
            (acc ++ [redisClaimedJob now vt
              ((redisHGetAll jobId s).attempts.getD 0)
              ((redisHGetAll jobId s).maxAttempts.getD 0) jobId queue
              (redisHGetAll jobId s)])
            (by
              intro h hh
              rw [hframe] at hh
              exact hinv h hh)
            (by
              intro j hj
              rcases List.mem_append.1 hj with hj | hj
              · exact hacc j hj
              · rcases List.mem_singleton.1 hj with rfl
                exact hji)
          exact ⟨hres.1, hres.2.trans (hframe _)⟩

/-- Rows whose id is outside the claimed-id set are untouched by the
drizzle claim update. -/
theorem bool_ne_true {b : Bool} (h : b = false) : ¬(b = true) := by
  rw [h]
  exact Bool.false_ne_true

/-- Rows whose id is outside the claimed-id set are untouched by the
drizzle claim update. -/
theorem filter_id_map_claim (now vt : Nat) (i : String)
    (ids : List String) (hcont : ids.contains i = false)
    (docs : List JobDoc) :
    ((docs.map fun d => if ids.contains d.id then claimUpdate now vt d
        else d).filter fun d => d.id == i) =
      docs.filter fun d => d.id == i := by
  induction docs with
  | nil => rfl
  | cons d docs ih =>
    simp only [List.map_cons, List.filter_cons]
    by_cases hdc : ids.contains d.id = true
    · have hdi : (d.id == i) = false := by
        cases hb : (d.id == i)
        · rfl
        · exfalso
          have hbe : d.id = i := by simpa using hb
          rw [hbe, hcont] at hdc
          cases hdc
      have hci : ((claimUpdate now vt d).id == i) = false := hdi
      rw [if_pos hdc, if_neg (bool_ne_true hci),
        if_neg (bool_ne_true hdi)]
      exact ih
    · rw [Bool.not_eq_true] at hdc
      rw [if_neg (bool_ne_true hdc), ih]

/-- C3 (amended): a job whose `attempts` already reached `maxAttempts`
at selection time is never returned by any adapter's dequeue; the
drizzle and redis adapters leave it entirely untouched, but the
mongodb dequeue flips an exhausted candidate (pending, visible, lease
expired) to `status = failed`. -/
theorem exhausted_claim_semantics :
    (∀ (queue : String) (now vt limit : Nat) (s : TableStore)
       (i : String),
       (∀ d ∈ s.jobs, d.id = i → d.maxAttempts ≤ d.attempts) →
       ∀ j ∈ (mongoDequeue now vt queue limit s).1, j.id ≠ i) ∧
    (∀ (queue : String) (now vt limit : Nat) (s : TableStore)
       (i : String),
       (∀ d ∈ s.jobs, d.id = i → d.maxAttempts ≤ d.attempts) →
       (∀ j ∈ (drizzleDequeue now vt queue limit s).1, j.id ≠ i) ∧
       ((drizzleDequeue now vt queue limit s).2.jobs.filter
           fun d => d.id == i) =
         (s.jobs.filter fun d => d.id == i)) ∧
    (∀ (queue : String) (now vt limit : Nat) (r : RedisStore)
       (i : String),
       (∀ h, lookupKey i r.jobs = some h →
         h.maxAttempts.getD 0 ≤ h.attempts.getD 0) →
       (∀ j ∈ (redisDequeue now vt queue limit r).1, j.id ≠ i) ∧
       lookupKey i (redisDequeue now vt queue limit r).2.jobs =
         lookupKey i r.jobs) ∧
    (∀ (d : JobDoc) (now vt : Nat),
       d.status = JobStatus.pending → d.visibleAt ≤ now →
       d.lockedUntil < now → d.maxAttempts ≤ d.attempts →
       mongoDequeue now vt d.queue 1 (singletonTable d) =
         ([], { jobs := [markFailed now d], logs := [] })) := by
  refine ⟨?_, ?_, ?_, ?_⟩
  · intro queue now vt limit s i hi
    exact mongoLoop_not_exhausted queue now vt i limit s.jobs hi
  · intro queue now vt limit s i hi
    by_cases hav : ((sortLe createdAtLe
        (s.jobs.filter (drizzleEligible queue now))).take
        limit).isEmpty = true
    · constructor
      · intro j hj
        simp only [drizzleDequeue, if_pos hav] at hj
        cases hj
      · simp only [drizzleDequeue, if_pos hav]
    · have hids : ∀ a ∈ (sortLe createdAtLe
          (s.jobs.filter (drizzleEligible queue now))).take limit,
          a.id ≠ i := by
        intro a ha hai
        have ham := List.mem_of_mem_take ha
        have ham2 := (mem_sortLe _ _ _).1 ham
        have ham3 := List.mem_filter.1 ham2
        have helig := ham3.2
        have hia := hi a ham3.1 hai
        simp only [drizzleEligible, Bool.and_eq_true,
          decide_eq_true_eq] at helig
        exact absurd helig.2 (Nat.not_lt.2 hia)
      have hcont : (((sortLe createdAtLe
          (s.jobs.filter (drizzleEligible queue now))).take
          limit).map (fun d => d.id)).contains i = false := by
        rw [List.contains_eq_any_beq, List.any_eq_false]
        intro x hx
        rcases List.mem_map.1 hx with ⟨a, ha, rfl⟩
        intro hbeq
        apply hids a ha
        have hbe := beq_iff_eq.1 hbeq
        exact hbe.symm
      constructor
      · intro j hj
        simp only [drizzleDequeue, if_neg hav] at hj
        have hj2 := (List.mem_filter.1 hj).2
        intro hji
        rw [hji] at hj2
        rw [hcont] at hj2
        cases hj2
      · simp only [drizzleDequeue, if_neg hav]
        exact filter_id_map_claim now vt i _ hcont s.jobs
  · intro queue now vt limit r i hi
    exact redisGo_not_exhausted now vt queue limit i _ r [] hi
      (by intro j hj; cases hj)
  · intro d now vt hs hv hl hx
    have hcand : mongoCandidate d.queue now d = true := by
      simp [mongoCandidate, hs, hv, hl]
    simp only [mongoDequeue, mongoDequeueLoop, mongoFindCandidate,
      singletonTable, List.filter_cons, hcand, List.filter_nil, sortLe,
      insertLe, List.head?, if_pos hx, updateById, List.map_cons,
      List.map_nil, if_pos rfl]
    rfl

/-- C3 witness: the exhausted-job facts instantiated on one-job stores
whose job has `attempts = maxAttempts = 3`. -/
theorem exhausted_claim_semantics_witness :
    ((drizzleDequeue 10 100 "q" 2
        (singletonTable (mkJob "a" 1 5 0 3 3 JobStatus.pending))).2.jobs.filter
      fun d => d.id == "a") =
      ((singletonTable (mkJob "a" 1 5 0 3 3
        JobStatus.pending)).jobs.filter fun d => d.id == "a") ∧
    lookupKey "a"
        (redisDequeue 10 100 "q" 2
          (redisSingleton (mkJob "a" 1 5 0 3 3
            JobStatus.pending))).2.jobs =
      lookupKey "a"
        (redisSingleton (mkJob "a" 1 5 0 3 3 JobStatus.pending)).jobs ∧
    mongoDequeue 10 100 "q" 1
        (singletonTable (mkJob "a" 1 5 0 3 3 JobStatus.pending)) =
      ([], { jobs := [markFailed 10 (mkJob "a" 1 5 0 3 3
        JobStatus.pending)], logs := [] }) := by
  obtain ⟨hm, hd, hr, hf⟩ := exhausted_claim_semantics
  refine ⟨(hd "q" 10 100 2
    (singletonTable (mkJob "a" 1 5 0 3 3 JobStatus.pending)) "a"
    (by decide)).2, ?_, ?_⟩
  · refine (hr "q" 10 100 2
      (redisSingleton (mkJob "a" 1 5 0 3 3 JobStatus.pending)) "a"
      ?_).2
    intro h hh
    have hl : lookupKey "a"
        (redisSingleton (mkJob "a" 1 5 0 3 3
          JobStatus.pending)).jobs =
        some (toRHash (mkJob "a" 1 5 0 3 3 JobStatus.pending)) := rfl
    rw [hl] at hh
    have := Option.some.inj hh
    subst this
    decide
  · have : "q" = (mkJob "a" 1 5 0 3 3 JobStatus.pending).queue := rfl
    rw [this]
    exact hf (mkJob "a" 1 5 0 3 3 JobStatus.pending) 10 100 (by decide)
      (by decide) (by decide) (by decide)

/-- C3 counterexample: in the mongodb adapter, dequeue over a store
holding one pending visible job with `attempts = maxAttempts = 3`
returns nothing but flips the job's status to `failed` — the claim's
"leaves its status field unchanged" fails. -/
theorem exhausted_claim_flips_status :
    ((mongoDequeue 10 100 "q" 1
        (singletonTable (mkJob "a" 1 5 0 3 3
          JobStatus.pending))).2.jobs.map fun d => d.status) =
      [JobStatus.failed] ∧
    JobStatus.failed ≠ JobStatus.pending := by
  decide

/-- C4 (amended): the mongodb dequeue always returns claimed jobs in
nondecreasing `createdAt` order; the drizzle dequeue does so whenever
the table rows are in `createdAt` order (the final select has no
order-by, so the returned order is the table's row order); the redis
dequeue scans candidates in the pending-set **score (`visibleAt`)
order**, so a delayed older job is returned after a younger one —
createdAt-FIFO fails there. -/
theorem fifo_claim_order :
    (∀ (queue : String) (now vt limit : Nat) (s : TableStore),
       ((mongoDequeue now vt queue limit s).1).Pairwise
         fun a b => a.createdAt ≤ b.createdAt) ∧
    (∀ (queue : String) (now vt limit : Nat) (s : TableStore),
       (s.jobs.Pairwise fun a b => a.createdAt ≤ b.createdAt) →
       ((drizzleDequeue now vt queue limit s).1).Pairwise
         fun a b => a.createdAt ≤ b.createdAt) ∧
    (∀ (now vt ca va cb vb : Nat), ca < cb → vb < va → va ≤ now →
       ((redisDequeue now vt "q" 2 (redisPairStore ca va cb vb)).1.map
         fun d => d.createdAt) = [cb, ca]) := by
  refine ⟨?_, ?_, ?_⟩
  · intro queue now vt limit s
    simpa [mongoDequeue] using
      mongoLoop_sorted queue now vt limit s.jobs
  · intro queue now vt limit s hs
    by_cases hav : ((sortLe createdAtLe
        (s.jobs.filter (drizzleEligible queue now))).take
        limit).isEmpty = true
    · simp only [drizzleDequeue]
      rw [if_pos hav]
      exact List.Pairwise.nil
    · simp only [drizzleDequeue, if_neg hav]
      have hg : ∀ x : JobDoc,
          (if ((sortLe createdAtLe
              (s.jobs.filter (drizzleEligible queue now))).take
              limit).map (fun d => d.id) |>.contains x.id then
            claimUpdate now vt x else x).createdAt = x.createdAt := by
        intro x
        by_cases hx : (((sortLe createdAtLe
            (s.jobs.filter (drizzleEligible queue now))).take
            limit).map (fun d => d.id)).contains x.id = true
        · rw [if_pos hx]
          rfl
        · rw [if_neg hx]
      refine List.Pairwise.filter _ ?_
      rw [List.pairwise_map]
      refine hs.imp ?_
      intro a b hab
      rw [hg a, hg b]
      exact hab
  · intro now vt ca va cb vb hc hv hva
    have h0 : 0 < now :=
      Nat.lt_of_lt_of_le (Nat.lt_of_le_of_lt (Nat.zero_le vb) hv) hva
    have d1 : decide (va ≤ now) = true := decide_eq_true hva
    have d2 : decide (vb ≤ now) = true :=
      decide_eq_true (Nat.le_trans (Nat.le_of_lt hv) hva)
    have d3 : decide (va < vb) = false :=
      decide_eq_false (Nat.lt_asymm hv)
    have d4 : decide (va = vb) = false :=
      decide_eq_false (Nat.ne_of_gt hv)
    have d5 : decide (now ≤ 0) = false :=
      decide_eq_false (Nat.not_le.2 h0)
    have hne : ¬(now = 0) := Nat.pos_iff_ne_zero.mp h0
    simp [redisDequeue, redisDequeueGo, zRangeByScoreCount, getZ,
      redisPairStore, lookupKey, setKey, sortLe, insertLe, zEntryLe,
      toRHash, mkJob, redisHGetAll, redisClaimedJob, redisClaimHash,
      modZ, zAdd, zRem, d1, d2, d3, d4, d5, hne]

/-- C4 witness: the drizzle FIFO fact on a two-row sorted table, and
the redis score-order fact at a concrete delayed-job instance. -/
theorem fifo_claim_order_witness :
    ((drizzleDequeue 10 100 "q" 2
        { jobs := [mkJob "a" 1 0 0 0 3 JobStatus.pending,
                   mkJob "b" 2 0 0 0 3 JobStatus.pending],
          logs := [] }).1.Pairwise
      fun a b => a.createdAt ≤ b.createdAt) ∧
    ((redisDequeue 20 100 "q" 2 (redisPairStore 1 10 2 5)).1.map
      fun d => d.createdAt) = [2, 1] := by
  obtain ⟨hm, hd, hr⟩ := fifo_claim_order
  constructor
  · exact hd "q" 10 100 2
      { jobs := [mkJob "a" 1 0 0 0 3 JobStatus.pending,
                 mkJob "b" 2 0 0 0 3 JobStatus.pending], logs := [] }
      (by decide)
  · exact hr 20 100 1 10 2 5 (by decide) (by decide) (by decide)

/-- C4 counterexample: in the redis adapter, two eligible pending jobs
with `createdAt = 1, visibleAt = 10` and `createdAt = 2, visibleAt = 5`
are claimed in pending-set score order — the returned `createdAt`
sequence is `[2, 1]`, which is **not** nondecreasing. -/
theorem fifo_violation_redis :
    ((redisDequeue 20 100 "q" 2 (redisPairStore 1 10 2 5)).1.map
      fun d => d.createdAt) = [2, 1] ∧
    ¬ (((redisDequeue 20 100 "q" 2 (redisPairStore 1 10 2 5)).1.map
      fun d => d.createdAt).Pairwise fun a b => a ≤ b) := by
  decide

/-- C1 (amended): on a one-job store, the mongodb and redis dequeues
return the job iff the spec gate
`status = pending ∧ visibleAt ≤ now ∧ lockedUntil < now ∧
attempts < maxAttempts` holds (so `visibleAt = now` is eligible and
`lockedUntil = now` is not); the drizzle dequeue instead requires the
**strict** `visibleAt < now`, so a job with `visibleAt = now` is not
claimable there. -/
theorem eligibility_gate_per_adapter :
    ∀ (d : JobDoc) (now vt : Nat),
      ((mongoDequeue now vt d.queue 1 (singletonTable d)).1 ≠ [] ↔
        specEligible now d) ∧
      ((redisDequeue now vt d.queue 1 (redisSingleton d)).1 ≠ [] ↔
        specEligible now d) ∧
      ((drizzleDequeue now vt d.queue 1 (singletonTable d)).1 ≠ [] ↔
        (d.status = JobStatus.pending ∧ d.visibleAt < now ∧
          d.lockedUntil < now ∧ d.attempts < d.maxAttempts)) := by
  intro d now vt
  refine ⟨?_, ?_, ?_⟩
  · have hgate : (mongoCandidate d.queue now d &&
        decide (d.attempts < d.maxAttempts)) = true ↔
        specEligible now d := by
      simp [mongoCandidate, specEligible, and_assoc]
    refine Iff.trans ?_ hgate
    cases hcf : mongoCandidate d.queue now d with
    | false =>
      have hfind : mongoFindCandidate d.queue now [d] = none := by
        simp [mongoFindCandidate, hcf, sortLe]
      simp [mongoDequeue, mongoDequeueLoop, singletonTable, hfind]
    | true =>
      have hfind : mongoFindCandidate d.queue now [d] = some d := by
        simp [mongoFindCandidate, hcf, sortLe, insertLe]
      by_cases hex : d.maxAttempts ≤ d.attempts
      · simp [mongoDequeue, mongoDequeueLoop, singletonTable, hfind,
          hex, Nat.not_lt.2 hex]
      · simp [mongoDequeue, mongoDequeueLoop, singletonTable, hfind,
          hex, Nat.not_le.1 hex]
  · by_cases hst : d.status = JobStatus.pending
    · have hpend : getZ d.queue (redisSingleton d).pendingZ =
          [{ member := d.id, score := d.visibleAt }] := by
        simp [redisSingleton, getZ, lookupKey_cons, pendEntries, hst]
      by_cases hvis : d.visibleAt ≤ now
      · have hcands : zRangeByScoreCount 0 now (1 * 2)
            (getZ d.queue (redisSingleton d).pendingZ) = [d.id] := by
          simp [hpend, zRangeByScoreCount, sortLe, insertLe, hvis]
        have hget : redisHGetAll d.id (redisSingleton d) = toRHash d :=
          by simp [redisHGetAll, redisSingleton, lookupKey_cons]
        by_cases hskip : (decide (d.maxAttempts ≤ d.attempts) ||
            decide (now ≤ d.lockedUntil)) = true
        · have hs2 : ¬ specEligible now d := by
            intro hsp
            rcases Bool.or_eq_true_iff.1 hskip with hx | hx
            · exact absurd hsp.2.2.2
                (Nat.not_lt.2 (of_decide_eq_true hx))
            · exact absurd hsp.2.2.1
                (Nat.not_lt.2 (of_decide_eq_true hx))
          simp [redisDequeue, hcands, redisDequeueGo, hget, toRHash,
            hskip, hs2]
        · have hs2 : specEligible now d := by
            have hx1 : ¬ (d.maxAttempts ≤ d.attempts) := by
              intro hle
              apply hskip
              rw [Bool.or_eq_true_iff]
              exact Or.inl (decide_eq_true hle)
            have hx2 : ¬ (now ≤ d.lockedUntil) := by
              intro hle
              apply hskip
              rw [Bool.or_eq_true_iff]
              exact Or.inr (decide_eq_true hle)
            exact ⟨hst, hvis, Nat.not_le.1 hx2, Nat.not_le.1 hx1⟩
          simp [redisDequeue, hcands, redisDequeueGo, hget, toRHash,
            hskip, hs2]
      · have hcands : zRangeByScoreCount 0 now (1 * 2)
            (getZ d.queue (redisSingleton d).pendingZ) = [] := by
          simp [hpend, zRangeByScoreCount, sortLe, insertLe, hvis]
        have hs2 : ¬ specEligible now d := fun hsp => hvis hsp.2.1
        simp [redisDequeue, hcands, redisDequeueGo, hs2]
    · have hpend : getZ d.queue (redisSingleton d).pendingZ = [] := by
        simp [redisSingleton, getZ, lookupKey_cons, pendEntries, hst]
      have hs2 : ¬ specEligible now d := fun hsp => hst hsp.1
      simp [redisDequeue, hpend, zRangeByScoreCount, sortLe,
        redisDequeueGo, hs2]
  · cases hel : drizzleEligible d.queue now d with
    | false =>
      have hav : ((sortLe createdAtLe
          ((singletonTable d).jobs.filter
            (drizzleEligible d.queue now))).take 1).isEmpty = true := by
        simp [singletonTable, hel, sortLe]
      have hs2 : ¬ (d.status = JobStatus.pending ∧ d.visibleAt < now ∧
          d.lockedUntil < now ∧ d.attempts < d.maxAttempts) := by
        intro hsp
        have : drizzleEligible d.queue now d = true := by
          simp [drizzleEligible, hsp.1, hsp.2.1, hsp.2.2.1, hsp.2.2.2]
        rw [hel] at this
        cases this
      simp only [drizzleDequeue]
      rw [if_pos hav]
      simp [hs2]
    | true =>
      have hs2 : d.status = JobStatus.pending ∧ d.visibleAt < now ∧
          d.lockedUntil < now ∧ d.attempts < d.maxAttempts := by
        simpa [drizzleEligible, and_assoc] using hel
      simp [drizzleDequeue, singletonTable, hel, sortLe, insertLe,
        claimUpdate, hs2]

/-- C1 counterexample: a pending, unlocked, fresh job with
`visibleAt = now = 100` satisfies the spec's eligibility gate, yet the
drizzle dequeue (strict `visibleAt < now`) returns nothing — the
boundary-value part of the claim fails for the drizzle adapter. -/
theorem eligibility_boundary_drizzle :
    specEligible 100 (mkJob "a" 1 100 0 0 3 JobStatus.pending) ∧
    (drizzleDequeue 100 30000 "q" 1
      (singletonTable (mkJob "a" 1 100 0 0 3
        JobStatus.pending))).1 = [] := by
  decide

/-- C2 (amended): after one poll cycle of the worker loop over an
always-throwing handler (mongodb store, one enqueued job), the loop
itself nacks the job with requeue: `getJob` shows `status = pending`
and `attempts = 1`, the audit log gained exactly one `"nack"` event,
and `handler_error` was reported through the configured logger sink
(not the audit log). -/
theorem handler_error_auto_requeue :
    ∀ (t0 t1 vt : Nat), t0 ≤ t1 → 0 < t1 →
      ((mongoGetJob "j1" (workerPollOnceThrowing t1 vt "q" 1
          ((mongoEnqueue t0 "j1" "q" "p" 3 none none
            { jobs := [], logs := [] }).2)).1).map
        fun d => (d.status, d.attempts)) =
        some (JobStatus.pending, 1) ∧
      ((mongoGetLogs "j1" (workerPollOnceThrowing t1 vt "q" 1
          ((mongoEnqueue t0 "j1" "q" "p" 3 none none
            { jobs := [], logs := [] }).2)).1).map
        fun l => l.event) = ["nack"] ∧
      (workerPollOnceThrowing t1 vt "q" 1
          ((mongoEnqueue t0 "j1" "q" "p" 3 none none
            { jobs := [], logs := [] }).2)).2 = ["handler_error"] := by
  intro t0 t1 vt ht h0
  have hcand : mongoCandidate "q"
      t1 (enqueueDoc t0 "j1" "q" "p" 3 none none) = true := by
    simp [mongoCandidate, enqueueDoc, enqueueVisibleAt, ht, h0]
  have hfind : mongoFindCandidate "q" t1
      [enqueueDoc t0 "j1" "q" "p" 3 none none] =
      some (enqueueDoc t0 "j1" "q" "p" 3 none none) := by
    simp [mongoFindCandidate, hcand, sortLe, insertLe]
  have hex : ¬ ((enqueueDoc t0 "j1" "q" "p" 3 none
      none).maxAttempts ≤
      (enqueueDoc t0 "j1" "q" "p" 3 none none).attempts) := by
    simp [enqueueDoc]
  have hdq : mongoDequeue t1 vt "q" 1
      ((mongoEnqueue t0 "j1" "q" "p" 3 none none
        { jobs := [], logs := [] }).2) =
      ([claimUpdate t1 vt (enqueueDoc t0 "j1" "q" "p" 3 none none)],
       { jobs := [claimUpdate t1 vt
           (enqueueDoc t0 "j1" "q" "p" 3 none none)], logs := [] }) := by
    simp only [mongoDequeue, mongoEnqueue, List.nil_append,
      mongoDequeueLoop, hfind]
    rw [if_neg hex]
    simp [mongoDequeueLoop, updateById]
  simp only [workerPollOnceThrowing, hdq]
  simp [workerAutoNack, mongoNack, mongoLogEvent, mongoGetJob,
    mongoGetLogs, updateById, requeueUpdate, claimUpdate, nackVisibleAt,
    enqueueDoc, sortLe, insertLe]

/-- C2 witness: the poll-cycle facts at `t0 = 0`, `t1 = 1`,
`visibilityTimeout = 30000`. -/
theorem handler_error_auto_requeue_witness :
    ((mongoGetJob "j1" (workerPollOnceThrowing 1 30000 "q" 1
        ((mongoEnqueue 0 "j1" "q" "p" 3 none none
          { jobs := [], logs := [] }).2)).1).map
      fun d => (d.status, d.attempts)) =
      some (JobStatus.pending, 1) ∧
    ((mongoGetLogs "j1" (workerPollOnceThrowing 1 30000 "q" 1
        ((mongoEnqueue 0 "j1" "q" "p" 3 none none
          { jobs := [], logs := [] }).2)).1).map
      fun l => l.event) = ["nack"] ∧
    (workerPollOnceThrowing 1 30000 "q" 1
        ((mongoEnqueue 0 "j1" "q" "p" 3 none none
          { jobs := [], logs := [] }).2)).2 = ["handler_error"] :=
  handler_error_auto_requeue 0 1 30000 (by decide) (by decide)

/-- C2 counterexample: in the same scenario the audit log (`getLogs`)
holds exactly a `"nack"` event and **no** `handler_error` event — the
claim's "getLogs contains a handler_error event" is false (the
`handler_error` goes to the logger sink only). -/
theorem handler_error_not_in_audit_log :
    ((mongoGetLogs "j1" (workerPollOnceThrowing 1 30000 "q" 1
        ((mongoEnqueue 0 "j1" "q" "p" 3 none none
          { jobs := [], logs := [] }).2)).1).map
      fun l => l.event) = ["nack"] ∧
    ¬ ("handler_error" ∈ ((mongoGetLogs "j1"
        (workerPollOnceThrowing 1 30000 "q" 1
          ((mongoEnqueue 0 "j1" "q" "p" 3 none none
            { jobs := [], logs := [] }).2)).1).map
      fun l => l.event)) := by
  decide

end Newq
